import Mathlib

/-!
Verification of the photo-collage application core: the slot-assignment
managers, the photo collection store, the realtime polling fallback, and
the pattern generators.

The source repository contains two distinct `SlotManager` classes (both in
`src/components/three/patterns/`, concatenated into one file here referred
to as the first and second variant).  Both are embedded below as
`SlotManager1` and `SlotManager2`.

Modelling conventions:
  - JavaScript `Map` is an association list (insertion order preserved,
    unique keys maintained by the code itself via the `has` guards);
  - JavaScript `Set` is a duplicate-free list, used only through
    membership, insert and delete;
  - JavaScript numbers are rationals; the transcendental functions
    `Math.sin`, `Math.cos`, `Math.atan2`, `Math.sqrt` are abstracted into a
    `TrigModel` parameter, so every theorem about the pattern generators
    quantifies over the trig implementation;
  - `photo.created_at` (an ISO timestamp string in the source, consumed
    only through `new Date(x).getTime()` and truthiness tests) is
    embedded as `Option Nat`: `none` for a missing/empty timestamp,
    `some t` for a string parsing to time `t`.
-/

namespace Photosphere

/-- Photo row, from `collageStore.ts` (interface Photo).  `created_at`
holds the parsed timestamp, see the module comment. -/
structure Photo where
  id : String
  collage_id : String
  url : String
  created_at : Option Nat
deriving DecidableEq, Repr

/-- Lookup in an association list, mirroring JavaScript `Map.get`
(first entry with the given key; the code keeps keys unique). -/
def mapLookup (k : String) : List (String × Nat) → Option Nat
  | [] => none
  | p :: rest => if p.1 = k then some p.2 else mapLookup k rest

/-- JavaScript `Set.add`: insert if absent. -/
def setInsert (n : Nat) (l : List Nat) : List Nat :=
  if n ∈ l then l else n :: l

/-- JavaScript `Set.delete`: remove the element (sets hold no duplicates). -/
def setDelete (n : Nat) (l : List Nat) : List Nat :=
  l.erase n

/-- `availableSlots.sort((a, b) => a - b)`: ascending numeric sort. -/
def sortNats (l : List Nat) : List Nat :=
  List.insertionSort (fun a b => a ≤ b) l

/-- The comparator of `SlotManager.assignSlots` (first variant):
`new Date(a.created_at).getTime() - new Date(b.created_at).getTime()` when
both timestamps are truthy, otherwise `a.id.localeCompare(b.id)`. -/
def photoCmp (a b : Photo) : Int :=
  match a.created_at, b.created_at with
  | some ta, some tb => (ta : Int) - (tb : Int)
  | _, _ => if a.id < b.id then -1 else if b.id < a.id then 1 else 0

/-- Non-positive comparator result: `a` may come before `b`. -/
def PhotoLeR (a b : Photo) : Prop := photoCmp a b ≤ 0

instance : DecidableRel PhotoLeR := fun a b => by
  unfold PhotoLeR; infer_instance

/-- `[...safePhotos].sort(comparator)`: JavaScript `Array.sort` is stable,
and insertion sort is the stable sort, so this is a faithful model
wherever the comparator is consistent (all inputs the claims exercise). -/
def sortPhotos (l : List Photo) : List Photo :=
  List.insertionSort PhotoLeR l

/-- The photos kept by `assignSlots`: `photos.filter(p => p && p.id)`
(an empty id string is falsy). -/
def safeFilter (photos : List Photo) : List Photo :=
  photos.filter (fun p => decide (p.id ≠ ""))

/-- The ascending list of slot indices below `total` that are not occupied. -/
def availFor (total : Nat) (occ : List Nat) : List Nat :=
  (List.range total).filter (fun i => decide (i ∉ occ))

/-! ### First SlotManager variant -/

/-- State of the first `SlotManager` class. -/
structure SlotManager1 where
  slotAssignments : List (String × Nat)
  occupiedSlots : List Nat
  availableSlots : List Nat
  totalSlots : Nat
  deletedSlots : List Nat
deriving DecidableEq, Repr

/-- `rebuildAvailableSlots` of the first variant: previously deleted slots
first (if still valid and free), then every other free slot not already
listed, then an ascending sort; `deletedSlots` is cleared. -/
def rebuildAvailableSlots1 (s : SlotManager1) : SlotManager1 :=
  let avail0 := s.deletedSlots.foldl
    (fun acc slot =>
      if slot < s.totalSlots ∧ slot ∉ s.occupiedSlots then acc ++ [slot] else acc) []
  let avail1 := (List.range s.totalSlots).foldl
    (fun acc i =>
      if i ∉ s.occupiedSlots ∧ i ∉ acc then acc ++ [i] else acc) avail0
  { s with availableSlots := sortNats avail1, deletedSlots := [] }

/-- `updateSlotCount` of the first variant: no-op when unchanged, else set
the new total, drop assignments whose slot is out of range, rebuild. -/
def updateSlotCount1 (s : SlotManager1) (newTotal : Nat) : SlotManager1 :=
  if newTotal = s.totalSlots then s
  else
    let s1 : SlotManager1 := { s with totalSlots := newTotal }
    let removedPairs := s1.slotAssignments.filter (fun p => decide (newTotal ≤ p.2))
    let s2 : SlotManager1 :=
      { s1 with
        slotAssignments := s1.slotAssignments.filter (fun p => decide (p.2 < newTotal)),
        occupiedSlots := removedPairs.foldl (fun occ p => setDelete p.2 occ) s1.occupiedSlots }
    rebuildAvailableSlots1 s2

/-- One iteration of the assignment loop of the first variant: a photo
without an assignment takes the next available slot, if any. -/
def assignStep1 (st : SlotManager1) (photo : Photo) : SlotManager1 :=
  match st.availableSlots, mapLookup photo.id st.slotAssignments with
  | slot :: rest, none =>
    { st with
      slotAssignments := st.slotAssignments ++ [(photo.id, slot)],
      occupiedSlots := setInsert slot st.occupiedSlots,
      availableSlots := rest }
  | _, _ => st

/-- `assignSlots` of the first variant: free the slots of photos no longer
live (remembering them in `deletedSlots`), rebuild the available list when
anything was removed, then assign slots to sorted new photos. -/
def assignSlots1 (s : SlotManager1) (photos : List Photo) : SlotManager1 :=
  let safePhotos := safeFilter photos
  let currentIds := safePhotos.map Photo.id
  let removedPairs := s.slotAssignments.filter (fun p => decide (p.1 ∉ currentIds))
  let s1 : SlotManager1 :=
    { s with
      deletedSlots := s.deletedSlots ++ removedPairs.map Prod.snd,
      slotAssignments := s.slotAssignments.filter (fun p => decide (p.1 ∈ currentIds)),
      occupiedSlots := removedPairs.foldl (fun occ p => setDelete p.2 occ) s.occupiedSlots }
  let s2 := if removedPairs = [] then s1 else rebuildAvailableSlots1 s1
  (sortPhotos safePhotos).foldl assignStep1 s2

/-- The constructor of the first variant. -/
def SlotManager1.new (totalSlots : Nat) : SlotManager1 :=
  updateSlotCount1
    { slotAssignments := [], occupiedSlots := [], availableSlots := [],
      totalSlots := 0, deletedSlots := [] } totalSlots

/-! ### Second SlotManager variant -/

/-- State of the second `SlotManager` class (no `deletedSlots` list). -/
structure SlotManager2 where
  slotAssignments : List (String × Nat)
  occupiedSlots : List Nat
  availableSlots : List Nat
  maxSlots : Nat
deriving DecidableEq, Repr

/-- `rebuildAvailableSlots` of the second variant. -/
def rebuildAvailableSlots2 (s : SlotManager2) : SlotManager2 :=
  { s with availableSlots := sortNats (availFor s.maxSlots s.occupiedSlots) }

/-- `updateSlotCount` of the second variant (no early return; it rebuilds,
drops out-of-range assignments, rebuilds again). -/
def updateSlotCount2 (s : SlotManager2) (newTotal : Nat) : SlotManager2 :=
  let s1 := rebuildAvailableSlots2 { s with maxSlots := newTotal }
  let removedPairs := s1.slotAssignments.filter (fun p => decide (newTotal ≤ p.2))
  let s2 : SlotManager2 :=
    { s1 with
      slotAssignments := s1.slotAssignments.filter (fun p => decide (p.2 < newTotal)),
      occupiedSlots := removedPairs.foldl (fun occ p => setDelete p.2 occ) s1.occupiedSlots }
  rebuildAvailableSlots2 s2

/-- One iteration of the preserve loop of the second variant: a still-live
photo with an assignment re-marks its slot occupied and removes it from
the available list. -/
def preserveStep2 (st : SlotManager2) (photo : Photo) : SlotManager2 :=
  match mapLookup photo.id st.slotAssignments with
  | some slotIndex =>
    { st with
      occupiedSlots := setInsert slotIndex st.occupiedSlots,
      availableSlots := st.availableSlots.erase slotIndex }
  | none => st

/-- One iteration of the assignment loop of the second variant:
`findAvailableSlot` shifts the head of the available list (returning
`maxSlots` when empty), and the assignment happens only when the returned
slot is below `maxSlots`. -/
def assignStep2 (st : SlotManager2) (photo : Photo) : SlotManager2 :=
  match mapLookup photo.id st.slotAssignments with
  | some _ => st
  | none =>
    match st.availableSlots with
    | slot :: rest =>
      if slot < st.maxSlots then
        { st with
          slotAssignments := st.slotAssignments ++ [(photo.id, slot)],
          occupiedSlots := setInsert slot st.occupiedSlots,
          availableSlots := rest }
      else { st with availableSlots := rest }
    | [] => st

/-- `assignSlots` of the second variant: clear slots of deleted photos
(pushing each freed slot into the available list, kept sorted), re-mark
the slots of surviving photos, then assign new photos in input order. -/
def assignSlots2 (s : SlotManager2) (photos : List Photo) : SlotManager2 :=
  let safePhotos := safeFilter photos
  let currentIds := safePhotos.map Photo.id
  let removedPairs := s.slotAssignments.filter (fun p => decide (p.1 ∉ currentIds))
  let s1 : SlotManager2 :=
    { s with
      slotAssignments := s.slotAssignments.filter (fun p => decide (p.1 ∈ currentIds)),
      occupiedSlots := removedPairs.foldl (fun occ p => setDelete p.2 occ) s.occupiedSlots,
      availableSlots := removedPairs.foldl (fun av p => sortNats (av ++ [p.2])) s.availableSlots }
  let s2 := safePhotos.foldl preserveStep2 s1
  safePhotos.foldl assignStep2 s2

/-- The constructor of the second variant. -/
def SlotManager2.new (totalSlots : Nat) : SlotManager2 :=
  updateSlotCount2
    { slotAssignments := [], occupiedSlots := [], availableSlots := [], maxSlots := 0 }
    totalSlots

/-- An operation on a slot manager: a reconcile call or a capacity change. -/
inductive SMOp where
  | reconcile (photos : List Photo)
  | resize (n : Nat)

/-- Run a sequence of operations on the first variant. -/
def run1 (s : SlotManager1) (ops : List SMOp) : SlotManager1 :=
  ops.foldl
    (fun st op =>
      match op with
      | SMOp.reconcile ps => assignSlots1 st ps
      | SMOp.resize n => updateSlotCount1 st n) s

/-- Run a sequence of operations on the second variant. -/
def run2 (s : SlotManager2) (ops : List SMOp) : SlotManager2 :=
  ops.foldl
    (fun st op =>
      match op with
      | SMOp.reconcile ps => assignSlots2 st ps
      | SMOp.resize n => updateSlotCount2 st n) s

/-! ### Photo collection store (`collageStore.ts`) -/

/-- The store fields the claims are about.  The fields `currentCollage`,
`collages` and `realtimeChannel` of the source store are omitted: they are
external handles or collage-list data untouched by the photo mutations
modelled here. -/
structure CollageState where
  photos : List Photo
  loading : Bool
  error : Option String
  isRealtimeConnected : Bool
  lastRefreshTime : Nat
  pollingInterval : Option Nat
deriving DecidableEq, Repr

/-- `addPhotoToState`: keep the state untouched when the id is already
present, otherwise prepend the photo and stamp `lastRefreshTime` with the
current clock (`Date.now()` is passed in as `now`). -/
def addPhotoToState (photo : Photo) (now : Nat) (s : CollageState) : CollageState :=
  if s.photos.any (fun p => decide (p.id = photo.id)) then s
  else { s with photos := photo :: s.photos, lastRefreshTime := now }

/-- `removePhotoFromState`: filter the id out; when nothing was removed the
code still returns a fresh state with an updated `lastRefreshTime` (to
force a re-render). -/
def removePhotoFromState (photoId : String) (now : Nat) (s : CollageState) : CollageState :=
  let newPhotos := s.photos.filter (fun p => decide (p.id ≠ photoId))
  if newPhotos.length = s.photos.length then { s with lastRefreshTime := now }
  else { s with photos := newPhotos, lastRefreshTime := now }

/-- The INSERT branch of the realtime callback: `addPhotoToState`. -/
def handleInsertEvent (photo : Photo) (now : Nat) (s : CollageState) : CollageState :=
  addPhotoToState photo now s

/-- The UPDATE branch of the realtime callback: map over the photo list
replacing the entry with the matching id. -/
def handleUpdateEvent (photo : Photo) (now : Nat) (s : CollageState) : CollageState :=
  { s with
    photos := s.photos.map (fun p => if p.id = photo.id then photo else p),
    lastRefreshTime := now }

/-- The DELETE branch of the realtime callback: `removePhotoFromState`. -/
def handleDeleteEvent (photoId : String) (now : Nat) (s : CollageState) : CollageState :=
  removePhotoFromState photoId now s

/-! ### Realtime subscription status and the polling fallback -/

/-- The polling period: `setInterval(..., 3000)`. -/
def POLL_MS : Nat := 3000

/-- The connection/polling slice of the store state. -/
structure RealtimeState where
  isRealtimeConnected : Bool
  pollingInterval : Option Nat
deriving DecidableEq, Repr

/-- `stopPolling`: clear the interval if any. -/
def stopPolling (s : RealtimeState) : RealtimeState :=
  { s with pollingInterval := none }

/-- `startPolling`: clear any existing interval, then schedule a 3-second
interval (the stored value records the period of the scheduled timer). -/
def startPolling (s : RealtimeState) : RealtimeState :=
  { stopPolling s with pollingInterval := some POLL_MS }

/-- The status callback of `setupRealtimeSubscription`: record
connectedness, start polling on any status other than SUBSCRIBED, stop it
on SUBSCRIBED. -/
def handleStatus (s : RealtimeState) (status : String) : RealtimeState :=
  let connected := status == "SUBSCRIBED"
  let s1 : RealtimeState := { s with isRealtimeConnected := connected }
  if connected then (if status == "SUBSCRIBED" then stopPolling s1 else s1)
  else startPolling s1

/-- Fold a sequence of status callbacks over the state. -/
def runStatuses (s : RealtimeState) (statuses : List String) : RealtimeState :=
  statuses.foldl handleStatus s

/-- The initial store state: not connected, no polling timer. -/
def initialRealtime : RealtimeState :=
  { isRealtimeConnected := false, pollingInterval := none }

/-- Polling is active iff an interval timer is scheduled. -/
def pollingActive (s : RealtimeState) : Bool :=
  s.pollingInterval.isSome

/-! ### Pattern generators

JavaScript numbers are modelled as rationals; `Math.sin`, `Math.cos`,
`Math.atan2` and `Math.sqrt` are abstracted into a `TrigModel`, so every
theorem below quantifies over the trig implementation.  The `x || d`
idiom of the source (`0` is falsy) is `jsOr`; optional chaining plus `||`
is `jsOrOpt`.  JavaScript `%` on numbers truncates toward zero
(`jsMod`). -/

/-- JavaScript `v || d` for numbers: `0` is falsy. -/
def jsOr (v d : Rat) : Rat := if v = 0 then d else v

/-- `o?.x || d` for an optionally-present numeric setting. -/
def jsOrOpt (o : Option Rat) (d : Rat) : Rat :=
  match o with
  | some v => jsOr v d
  | none => d

/-- Truncation toward zero, as JavaScript number-to-integer rounding. -/
def qtrunc (q : Rat) : Int := if 0 ≤ q then q.floor else q.ceil

/-- JavaScript `a % b` on numbers. -/
def jsMod (a b : Rat) : Rat := a - b * (qtrunc (a / b) : Rat)

/-- Abstract interface for the transcendental functions of `Math`. -/
structure TrigModel where
  sin : Rat → Rat
  cos : Rat → Rat
  atan2 : Rat → Rat → Rat
  sqrt : Rat → Rat

/-- Per-pattern grid settings (`patterns.grid`); `aspect` is the
`aspectRatio` field of the source. -/
structure GridSettings where
  photoCount : Option Nat
  spacing : Option Rat
  aspect : Option Rat
  wallHeight : Option Rat
deriving DecidableEq, Repr

/-- Per-pattern float settings (`patterns.float`). -/
structure FloatSettings where
  photoCount : Option Nat
  height : Option Rat
  spread : Option Rat
deriving DecidableEq, Repr

/-- Per-pattern wave settings (`patterns.wave`). -/
structure WaveSettings where
  photoCount : Option Nat
  spacing : Option Rat
  amplitude : Option Rat
  frequency : Option Rat
deriving DecidableEq, Repr

/-- The `patterns` sub-document of the scene settings. -/
structure PatternsSettings where
  grid : Option GridSettings
  float : Option FloatSettings
  wave : Option WaveSettings
deriving DecidableEq, Repr

/-- The scene-settings fields read by the three pattern generators;
`gridAspect` is the `gridAspectRatio` field of the source. -/
structure Settings where
  animationEnabled : Bool
  animationSpeed : Rat
  photoCount : Nat
  photoSize : Rat
  photoSpacing : Rat
  photoRotation : Bool
  wallHeight : Rat
  floorSize : Rat
  gridAspect : Rat
  patterns : PatternsSettings
deriving DecidableEq, Repr

/-- Float speed factor:
`animationEnabled ? Math.max(0.1, animationSpeed / 50) : 0`. -/
def floatSpeedFactor (s : Settings) : Rat :=
  if s.animationEnabled then max (1/10) (s.animationSpeed / 50) else 0

/-- Wave speed factor (first `WavePattern` variant):
`animationEnabled ? animationSpeed / 50 : 0`. -/
def waveSpeedFactor (s : Settings) : Rat :=
  if s.animationEnabled then s.animationSpeed / 50 else 0

/-- Grid speed factor: `animationSpeed / 50` (the enabled flag is applied
to `animationTime` instead). -/
def gridSpeedFactor (s : Settings) : Rat :=
  s.animationSpeed / 50

/-! Float pattern (`FloatPattern.generatePositions`). -/

def floatPhotoCount (s : Settings) : Nat :=
  (s.patterns.float.bind FloatSettings.photoCount).getD s.photoCount

def floatTotalPhotos (s : Settings) : Nat := min (floatPhotoCount s) 500

def floatFloorSize (s : Settings) : Rat := jsOr s.floorSize 200

/-- The deterministic per-slot base point and phase offset of
`generateDynamicBasePositions` (the memoising cache is keyed by floor size
and slot count and the entries depend on the slot index only, so the cache
is pure memoisation of this function). -/
def floatBase (T : TrigModel) (floorSize : Rat) (i : Nat) : Rat × Rat × Rat :=
  (T.sin ((i : Rat) * (273/100) + 1123/1000) * (floorSize / 2),
   T.cos ((i : Rat) * (337/100) + 2456/1000) * (floorSize / 2),
   jsMod ((i : Rat) * (211/1000)) 1)

def floatMaxHeight (s : Settings) : Rat :=
  jsOrOpt (s.patterns.float.bind FloatSettings.height) 60

def floatStartHeight : Rat := -40

def floatCycleHeight (s : Settings) : Rat := floatMaxHeight s - floatStartHeight

/-- Position of slot `i` in the float pattern at time `t`. -/
def floatPos (T : TrigModel) (s : Settings) (t : Rat) (i : Nat) : Rat × Rat × Rat :=
  let sf := floatSpeedFactor s
  let base := floatBase T (floatFloorSize s) i
  let cycle := floatCycleHeight s
  let y :=
    if 0 < sf then
      floatStartHeight + jsMod (t * 15 * sf + base.2.2 * cycle) cycle
        + T.sin (t * 2 * sf + (i : Rat) * (3/10)) * (4/10)
    else floatStartHeight + base.2.2 * cycle
  let driftStrength :=
    max (3/2) (jsOrOpt (s.patterns.float.bind FloatSettings.spread) 25 * (1/10))
  let driftSpeed := (3/10) * sf
  let x :=
    if 0 < sf then base.1 + T.sin (t * driftSpeed + (i : Rat) * (5/10)) * driftStrength
    else base.1
  let z :=
    if 0 < sf then
      base.2.1 + T.cos (t * driftSpeed * (8/10) + (i : Rat) * (7/10)) * driftStrength
    else base.2.1
  (x, y, z)

/-- Rotation of slot `i` in the float pattern at time `t` (always yaws to
face the origin, wobbling only while animating). -/
def floatRot (T : TrigModel) (s : Settings) (t : Rat) (i : Nat) : Rat × Rat × Rat :=
  let sf := floatSpeedFactor s
  let p := floatPos T s t i
  let wobbleX := if 0 < sf then T.sin (t * (1/2) * sf + (i : Rat) * (2/10)) * (3/100) else 0
  let wobbleZ := if 0 < sf then T.cos (t * (4/10) * sf + (i : Rat) * (3/10)) * (3/100) else 0
  (wobbleX, T.atan2 (-p.1) (-p.2.2), wobbleZ)

/-- `FloatPattern.generatePositions`. -/
def floatGeneratePositions (T : TrigModel) (s : Settings) (t : Rat) :
    List (Rat × Rat × Rat) × List (Rat × Rat × Rat) :=
  ((List.range (floatTotalPhotos s)).map (floatPos T s t),
   (List.range (floatTotalPhotos s)).map (floatRot T s t))

/-! Wave pattern (first `WavePattern.generatePositions` variant, the one
whose speed factor the specification cites). -/

def wavePhotoCount (s : Settings) : Nat :=
  (s.patterns.wave.bind WaveSettings.photoCount).getD s.photoCount

def waveTotalPhotos (s : Settings) : Nat := min (wavePhotoCount s) 500

def waveSpacing (s : Settings) : Rat :=
  s.photoSize *
    (1 + jsOrOpt (s.patterns.wave.bind WaveSettings.spacing) (jsOr s.photoSpacing (15/100)))

def waveColumns (T : TrigModel) (s : Settings) : Int :=
  (T.sqrt ((waveTotalPhotos s : Rat))).ceil

def waveRows (T : TrigModel) (s : Settings) : Int :=
  (((waveTotalPhotos s : Rat)) / ((waveColumns T s : Int) : Rat)).ceil

/-- The static (time-independent) base x/z grid coordinates of slot `i`. -/
def waveXZ (T : TrigModel) (s : Settings) (i : Nat) : Rat × Rat :=
  let cols := waveColumns T s
  let col : Int := (i : Int) % cols
  let row : Int := (i : Int) / cols
  (((col : Rat) - (cols : Rat) / 2) * waveSpacing s,
   ((row : Rat) - (waveRows T s : Rat) / 2) * waveSpacing s)

def waveAmplitude (s : Settings) : Rat :=
  jsOrOpt (s.patterns.wave.bind WaveSettings.amplitude) 5

def waveFrequency (s : Settings) : Rat :=
  jsOrOpt (s.patterns.wave.bind WaveSettings.frequency) (1/2)

/-- Position of slot `i` in the wave pattern at time `t`. -/
def wavePos (T : TrigModel) (s : Settings) (t : Rat) (i : Nat) : Rat × Rat × Rat :=
  let xz := waveXZ T s i
  let dist := T.sqrt (xz.1 * xz.1 + xz.2 * xz.2)
  let wavePhase := t * waveSpeedFactor s * 2
  let y :=
    if s.animationEnabled then
      s.wallHeight + T.sin (dist * waveFrequency s - wavePhase) * waveAmplitude s
        + T.sin (wavePhase * (1/2)) * (dist * (1/10))
    else s.wallHeight
  (xz.1, y, xz.2)

/-- Rotation of slot `i` in the wave pattern at time `t`. -/
def waveRot (T : TrigModel) (s : Settings) (t : Rat) (i : Nat) : Rat × Rat × Rat :=
  if s.photoRotation then
    let xz := waveXZ T s i
    let dist := T.sqrt (xz.1 * xz.1 + xz.2 * xz.2)
    let wavePhase := t * waveSpeedFactor s * 2
    (T.sin (wavePhase * (1/2) + dist * (1/10)) * (1/10),
     T.atan2 xz.1 xz.2,
     T.cos (wavePhase * (1/2) + dist * (1/10)) * (1/10))
  else (0, 0, 0)

/-- `WavePattern.generatePositions` (first variant). -/
def waveGeneratePositions (T : TrigModel) (s : Settings) (t : Rat) :
    List (Rat × Rat × Rat) × List (Rat × Rat × Rat) :=
  ((List.range (waveTotalPhotos s)).map (wavePos T s t),
   (List.range (waveTotalPhotos s)).map (waveRot T s t))

/-! Grid pattern (`GridPattern.generatePositions`). -/

def gridPhotoCount (s : Settings) : Nat :=
  (s.patterns.grid.bind GridSettings.photoCount).getD s.photoCount

def gridTotalPhotos (s : Settings) : Nat := min (gridPhotoCount s) 500

def gridAspectValue (s : Settings) : Rat :=
  jsOrOpt (s.patterns.grid.bind GridSettings.aspect) (jsOr s.gridAspect 1)

def gridColumns (T : TrigModel) (s : Settings) : Int :=
  (T.sqrt ((gridTotalPhotos s : Rat) * gridAspectValue s)).ceil

def gridPhotoSize (s : Settings) : Rat := jsOr s.photoSize 4

def gridSpacingPct (s : Settings) : Rat :=
  jsOrOpt (s.patterns.grid.bind GridSettings.spacing) (jsOr s.photoSpacing 0)

/-- Horizontal and vertical pitch: edge-to-edge constants at spacing 0,
`photoSize + gap` with the identical formula on both axes otherwise. -/
def gridPitch (s : Settings) : Rat × Rat :=
  if gridSpacingPct s = 0 then (gridPhotoSize s * (562/1000), gridPhotoSize s)
  else (gridPhotoSize s + gridSpacingPct s * gridPhotoSize s * 2,
        gridPhotoSize s + gridSpacingPct s * gridPhotoSize s * 2)

def gridWallHeight (s : Settings) : Rat :=
  jsOrOpt (s.patterns.grid.bind GridSettings.wallHeight) (jsOr s.wallHeight 0)

/-- Position of slot `i` in the grid pattern at time `t`. -/
def gridPos (T : TrigModel) (s : Settings) (t : Rat) (i : Nat) : Rat × Rat × Rat :=
  let sf := gridSpeedFactor s
  let cols := gridColumns T s
  let col : Int := (i : Int) % cols
  let row : Int := (i : Int) / cols
  let hs := (gridPitch s).1
  let vs := (gridPitch s).2
  let totalWallWidth := ((cols : Rat) - 1) * hs
  let x := (col : Rat) * hs - totalWallWidth / 2
  let baseY := gridWallHeight s + (row : Rat) * vs
  let animationTime := if s.animationEnabled then t else 0
  if s.animationEnabled ∧ 0 < gridSpacingPct s then
    let waveIntensity := gridSpacingPct s * gridPhotoSize s * (2/10)
    let waveX := T.sin (animationTime * sf * (1/2) + (col : Rat) * (3/10)) * waveIntensity
    let waveY := T.cos (animationTime * sf * (1/2) + (row : Rat) * (3/10)) * waveIntensity
    (x, max (baseY + waveY) (gridWallHeight s), waveX)
  else (x, baseY, 0)

/-- Rotation of slot `i` in the grid pattern at time `t` (zero unless
photo rotation is on, animation is on and there is spacing). -/
def gridRot (T : TrigModel) (s : Settings) (t : Rat) (i : Nat) : Rat × Rat × Rat :=
  if s.photoRotation then
    if s.animationEnabled ∧ 0 < gridSpacingPct s then
      let sf := gridSpeedFactor s
      let cols := gridColumns T s
      let col : Int := (i : Int) % cols
      let row : Int := (i : Int) / cols
      let p := gridPos T s t i
      (T.sin (t * sf * (3/10) + (col : Rat) * (1/10)) * (5/100),
       T.atan2 p.1 (p.2.2 + 10),
       T.cos (t * sf * (3/10) + (row : Rat) * (1/10)) * (5/100))
    else (0, 0, 0)
  else (0, 0, 0)

/-- `GridPattern.generatePositions`. -/
def gridGeneratePositions (T : TrigModel) (s : Settings) (t : Rat) :
    List (Rat × Rat × Rat) × List (Rat × Rat × Rat) :=
  ((List.range (gridTotalPhotos s)).map (gridPos T s t),
   (List.range (gridTotalPhotos s)).map (gridRot T s t))

/-! ### Concrete values for the scenario claims -/

/-- Example photos with ascending timestamps (upload order A, B, C, D). -/
def photoA : Photo := { id := "A", collage_id := "c1", url := "uA", created_at := some 1 }

def photoB : Photo := { id := "B", collage_id := "c1", url := "uB", created_at := some 2 }

def photoC : Photo := { id := "C", collage_id := "c1", url := "uC", created_at := some 3 }

def photoD : Photo := { id := "D", collage_id := "c1", url := "uD", created_at := some 4 }

/-- Two photos sharing one timestamp, with distinct ids. -/
def photoEq1 : Photo := { id := "a", collage_id := "c1", url := "u1", created_at := some 10 }

def photoEq2 : Photo := { id := "b", collage_id := "c1", url := "u2", created_at := some 10 }

/-- A photo and a same-id variant with a different url (an UPDATE payload). -/
def photoV1 : Photo := { id := "a", collage_id := "c1", url := "url1", created_at := some 1 }

def photoV2 : Photo := { id := "a", collage_id := "c1", url := "url2", created_at := some 1 }

/-- A collage store state holding the given photos and default flags. -/
def collageStateWith (ps : List Photo) : CollageState :=
  { photos := ps, loading := false, error := none, isRealtimeConnected := false,
    lastRefreshTime := 0, pollingInterval := none }

/-- A trig model sending everything to zero (used to instantiate
trig-quantified theorems on concrete inputs). -/
def zeroTrig : TrigModel :=
  { sin := fun _ => 0, cos := fun _ => 0, atan2 := fun _ _ => 0, sqrt := fun _ => 0 }

/-- Settings with animation enabled and the speed slider at 0. -/
def settingsSpeed0 : Settings :=
  { animationEnabled := true, animationSpeed := 0, photoCount := 2, photoSize := 1,
    photoSpacing := 0, photoRotation := false, wallHeight := 0, floorSize := 200,
    gridAspect := 1, patterns := { grid := none, float := none, wave := none } }

/-- Settings with animation enabled and the speed slider at 50. -/
def settingsSpeed50 : Settings :=
  { animationEnabled := true, animationSpeed := 50, photoCount := 2, photoSize := 1,
    photoSpacing := 0, photoRotation := false, wallHeight := 0, floorSize := 200,
    gridAspect := 1, patterns := { grid := none, float := none, wave := none } }

/-- A photo without a creation timestamp. -/
def photoNoTs : Photo := { id := "x", collage_id := "c1", url := "ux", created_at := none }

/-- Settings with animation disabled. -/
def settingsDisabled : Settings :=
  { animationEnabled := false, animationSpeed := 50, photoCount := 2, photoSize := 1,
    photoSpacing := 0, photoRotation := true, wallHeight := 0, floorSize := 200,
    gridAspect := 1, patterns := { grid := none, float := none, wave := none } }

/-! ### Reachable-state invariants of the two slot managers -/

/-- The inductive invariant of the first variant: unique photo ids, unique
slot values, all values in range, the occupied set is exactly the set of
assigned values, the available list is the canonical ascending free list,
and the deleted list is empty between operations. -/
def Inv1 (s : SlotManager1) : Prop :=
  (s.slotAssignments.map Prod.fst).Nodup ∧
  (s.slotAssignments.map Prod.snd).Nodup ∧
  (∀ p ∈ s.slotAssignments, p.2 < s.totalSlots) ∧
  s.occupiedSlots.Nodup ∧
  (∀ n ∈ s.occupiedSlots, n ∈ s.slotAssignments.map Prod.snd) ∧
  (∀ n ∈ s.slotAssignments.map Prod.snd, n ∈ s.occupiedSlots) ∧
  s.availableSlots = availFor s.totalSlots s.occupiedSlots ∧
  s.deletedSlots = []

/-- The inductive invariant of the second variant. -/
def Inv2 (s : SlotManager2) : Prop :=
  (s.slotAssignments.map Prod.fst).Nodup ∧
  (s.slotAssignments.map Prod.snd).Nodup ∧
  (∀ p ∈ s.slotAssignments, p.2 < s.maxSlots) ∧
  s.occupiedSlots.Nodup ∧
  (∀ n ∈ s.occupiedSlots, n ∈ s.slotAssignments.map Prod.snd) ∧
  (∀ n ∈ s.slotAssignments.map Prod.snd, n ∈ s.occupiedSlots) ∧
  s.availableSlots = availFor s.maxSlots s.occupiedSlots

instance (s : SlotManager1) : Decidable (Inv1 s) := by
  unfold Inv1; infer_instance

instance (s : SlotManager2) : Decidable (Inv2 s) := by
  unfold Inv2; infer_instance

/-- The timestamp of a photo, defaulting to zero (used only when the
timestamp is known to be present). -/
def tsOf (p : Photo) : Nat := p.created_at.getD 0

/-! ### Basic lemmas about the list-level building blocks -/

theorem mapLookup_cons (p : String × Nat) (rest : List (String × Nat)) (k : String) :
    mapLookup k (p :: rest) = if p.1 = k then some p.2 else mapLookup k rest := rfl

theorem mapLookup_append_some {k : String} {v : Nat} {l l' : List (String × Nat)}
    (h : mapLookup k l = some v) : mapLookup k (l ++ l') = some v := by
  induction l with
  | nil => simp [mapLookup] at h
  | cons p rest ih =>
    rw [List.cons_append]
    rw [mapLookup_cons] at h ⊢
    by_cases hp : p.1 = k
    · rw [if_pos hp] at h ⊢
      exact h
    · rw [if_neg hp] at h ⊢
      exact ih h

theorem mapLookup_append_none {k : String} {l l' : List (String × Nat)}
    (h : mapLookup k l = none) : mapLookup k (l ++ l') = mapLookup k l' := by
  induction l with
  | nil => simp
  | cons p rest ih =>
    rw [List.cons_append]
    rw [mapLookup_cons] at h ⊢
    by_cases hp : p.1 = k
    · rw [if_pos hp] at h
      exact absurd h (by simp)
    · rw [if_neg hp] at h ⊢
      exact ih h

theorem mapLookup_eq_none_iff {k : String} {l : List (String × Nat)} :
    mapLookup k l = none ↔ ∀ p ∈ l, p.1 ≠ k := by
  induction l with
  | nil => simp [mapLookup]
  | cons p rest ih =>
    by_cases hp : p.1 = k
    · simp [mapLookup, hp]
    · simp [mapLookup, hp, ih]

theorem mapLookup_mem {k : String} {v : Nat} {l : List (String × Nat)}
    (h : mapLookup k l = some v) : (k, v) ∈ l := by
  induction l with
  | nil => simp [mapLookup] at h
  | cons p rest ih =>
    rw [mapLookup_cons] at h
    by_cases hp : p.1 = k
    · rw [if_pos hp] at h
      have hv : p.2 = v := by
        simpa using h
      have hpkv : p = (k, v) := by
        obtain ⟨p1, p2⟩ := p
        simp only at hp hv
        rw [hp, hv]
      rw [← hpkv]
      exact List.mem_cons_self p rest
    · rw [if_neg hp] at h
      exact List.mem_cons_of_mem _ (ih h)

theorem mapLookup_filter {k : String} {l : List (String × Nat)} {cond : String × Nat → Bool}
    (h : ∀ p : String × Nat, p.1 = k → cond p = true) :
    mapLookup k (l.filter cond) = mapLookup k l := by
  induction l with
  | nil => simp
  | cons p rest ih =>
    by_cases hp : p.1 = k
    · rw [List.filter_cons, if_pos (by rw [h p hp])]
      rw [mapLookup_cons, mapLookup_cons, if_pos hp, if_pos hp]
    · rw [List.filter_cons]
      by_cases hc : cond p = true
      · rw [if_pos (by rw [hc])]
        rw [mapLookup_cons, mapLookup_cons, if_neg hp, if_neg hp]
        exact ih
      · rw [if_neg (by simpa using hc)]
        rw [ih, mapLookup_cons, if_neg hp]

theorem filter_all_of_filter_not_nil {α : Type} (P : α → Prop) [DecidablePred P]
    {l : List α} (h : l.filter (fun a => decide (¬ P a)) = []) :
    l.filter (fun a => decide (P a)) = l := by
  induction l with
  | nil => simp
  | cons a rest ih =>
    by_cases ha : P a
    · have h' : rest.filter (fun x => decide (¬ P x)) = [] := by
        rw [List.filter_cons] at h
        rwa [if_neg (by simpa using ha)] at h
      rw [List.filter_cons, if_pos (by simpa using ha), ih h']
    · exfalso
      have hmem : a ∈ (a :: rest).filter (fun x => decide (¬ P x)) := by
        rw [List.mem_filter]
        exact ⟨List.mem_cons_self a rest, by simpa using ha⟩
      rw [h] at hmem
      exact (List.not_mem_nil a) hmem

theorem mem_availFor {total : Nat} {occ : List Nat} {n : Nat} :
    n ∈ availFor total occ ↔ n < total ∧ n ∉ occ := by
  simp [availFor, List.mem_filter, List.mem_range]

theorem availFor_nodup (total : Nat) (occ : List Nat) : (availFor total occ).Nodup :=
  (List.nodup_range total).filter _

theorem availFor_sorted (total : Nat) (occ : List Nat) :
    List.Sorted (· ≤ ·) (availFor total occ) :=
  List.Pairwise.filter _ (List.sorted_le_range total)

theorem sortNats_perm (l : List Nat) : List.Perm (sortNats l) l :=
  List.perm_insertionSort _ l

theorem sortNats_sorted (l : List Nat) : List.Sorted (· ≤ ·) (sortNats l) :=
  List.sorted_insertionSort _ l

theorem sortNats_eq_of_sorted {l : List Nat} (h : List.Sorted (· ≤ ·) l) :
    sortNats l = l :=
  List.Sorted.insertionSort_eq h

theorem sortNats_congr_perm {l₁ l₂ : List Nat} (h : List.Perm l₁ l₂) :
    sortNats l₁ = sortNats l₂ :=
  List.eq_of_perm_of_sorted (((sortNats_perm l₁).trans h).trans (sortNats_perm l₂).symm)
    (sortNats_sorted l₁) (sortNats_sorted l₂)

theorem sortNats_eq_availFor {total : Nat} {occ : List Nat} {l : List Nat}
    (hnd : l.Nodup) (hmem : ∀ n, n ∈ l ↔ n < total ∧ n ∉ occ) :
    sortNats l = availFor total occ := by
  have hperm : List.Perm l (availFor total occ) := by
    rw [List.perm_ext_iff_of_nodup hnd (availFor_nodup total occ)]
    intro n
    rw [hmem n, mem_availFor]
  rw [sortNats_congr_perm hperm, sortNats_eq_of_sorted (availFor_sorted total occ)]

theorem sortPhotos_perm (l : List Photo) : List.Perm (sortPhotos l) l :=
  List.perm_insertionSort _ l

/-- The second fold of `rebuildAvailableSlots` (first variant): appending
each element not occupied and not already accumulated. -/
theorem foldl_dedup (occ : List Nat) :
    ∀ (l acc : List Nat), l.Nodup →
      l.foldl (fun acc i => if i ∉ occ ∧ i ∉ acc then acc ++ [i] else acc) acc
        = acc ++ l.filter (fun i => decide (i ∉ occ ∧ i ∉ acc)) := by
  intro l
  induction l with
  | nil => intro acc _; simp
  | cons i t ih =>
    intro acc hnd
    have hit : i ∉ t := (List.nodup_cons.mp hnd).1
    have hnt : t.Nodup := (List.nodup_cons.mp hnd).2
    by_cases h1 : i ∉ occ ∧ i ∉ acc
    · rw [List.foldl_cons, if_pos h1, ih (acc ++ [i]) hnt, List.filter_cons,
        decide_eq_true h1]
      have hfeq : t.filter (fun j => decide (j ∉ occ ∧ j ∉ acc ++ [i]))
          = t.filter (fun j => decide (j ∉ occ ∧ j ∉ acc)) := by
        apply List.filter_congr
        intro j hj
        have hji : j ≠ i := fun hji => hit (hji ▸ hj)
        simp [List.mem_append, hji]
      rw [hfeq]
      simp
    · rw [List.foldl_cons, if_neg h1, ih acc hnt, List.filter_cons]
      have : decide (i ∉ occ ∧ i ∉ acc) = false := by
        simpa using h1
      rw [this]
      simp

/-- The first fold of `rebuildAvailableSlots` (first variant): plain
conditional append is filtering. -/
theorem foldl_cond_append (total : Nat) (occ : List Nat) :
    ∀ (l acc : List Nat),
      l.foldl (fun acc slot => if slot < total ∧ slot ∉ occ then acc ++ [slot] else acc) acc
        = acc ++ l.filter (fun slot => decide (slot < total ∧ slot ∉ occ)) := by
  intro l
  induction l with
  | nil => intro acc; simp
  | cons i t ih =>
    intro acc
    by_cases h1 : i < total ∧ i ∉ occ
    · rw [List.foldl_cons, if_pos h1, ih, List.filter_cons, decide_eq_true h1]
      simp
    · rw [List.foldl_cons, if_neg h1, ih, List.filter_cons]
      have : decide (i < total ∧ i ∉ occ) = false := by simpa using h1
      rw [this]
      simp

theorem foldl_preserves {α σ : Type} {P : σ → Prop} {f : σ → α → σ}
    (h : ∀ s a, P s → P (f s a)) :
    ∀ (l : List α) (s : σ), P s → P (l.foldl f s) := by
  intro l
  induction l with
  | nil => intro s hs; exact hs
  | cons a t ih => intro s hs; exact ih (f s a) (h s a hs)

theorem filter_eq_self_of {α : Type} (p : α → Bool) :
    ∀ (l : List α), (∀ a ∈ l, p a = true) → l.filter p = l := by
  intro l
  induction l with
  | nil => intro _; rfl
  | cons a t ih =>
    intro h
    rw [List.filter_cons, if_pos (h a (List.mem_cons_self a t)), ih]
    intro b hb
    exact h b (List.mem_cons_of_mem a hb)

/-- Deleting a batch of values from a duplicate-free set list. -/
theorem foldl_setDelete (l : List (String × Nat)) :
    ∀ (occ : List Nat), occ.Nodup →
      (l.foldl (fun o p => setDelete p.2 o) occ).Nodup ∧
      (∀ n, n ∈ l.foldl (fun o p => setDelete p.2 o) occ ↔ n ∈ occ ∧ n ∉ l.map Prod.snd) := by
  induction l with
  | nil => intro occ h; exact ⟨h, by simp⟩
  | cons p t ih =>
    intro occ h
    have h1 : (setDelete p.2 occ).Nodup := h.erase p.2
    obtain ⟨hnd, hmem⟩ := ih (setDelete p.2 occ) h1
    refine ⟨hnd, fun n => ?_⟩
    rw [List.foldl_cons] at *
    rw [hmem n]
    unfold setDelete
    rw [h.mem_erase_iff]
    simp only [List.map_cons, List.mem_cons]
    constructor
    · rintro ⟨⟨hne, hocc⟩, hnt⟩
      exact ⟨hocc, by simp [hne, hnt]⟩
    · rintro ⟨hocc, hall⟩
      push_neg at hall
      exact ⟨⟨hall.1, hocc⟩, hall.2⟩

theorem mem_vals_filter_snd {P : Nat → Prop} [DecidablePred P]
    {l : List (String × Nat)} {n : Nat} :
    n ∈ (l.filter (fun p => decide (P p.2))).map Prod.snd ↔
      n ∈ l.map Prod.snd ∧ P n := by
  simp only [List.mem_map, List.mem_filter, decide_eq_true_eq]
  constructor
  · rintro ⟨p, ⟨hp, hP⟩, rfl⟩
    exact ⟨⟨p, hp, rfl⟩, hP⟩
  · rintro ⟨⟨p, hp, rfl⟩, hP⟩
    exact ⟨p, ⟨hp, hP⟩, rfl⟩

/-- With duplicate-free values, the values of the pairs kept by a filter
are exactly the values not belonging to a pair removed by it. -/
theorem mem_vals_filter_split {P : String × Nat → Prop} [DecidablePred P] :
    ∀ {l : List (String × Nat)}, (l.map Prod.snd).Nodup → ∀ (n : Nat),
      (n ∈ (l.filter (fun p => decide (P p))).map Prod.snd ↔
        n ∈ l.map Prod.snd ∧ n ∉ (l.filter (fun p => decide (¬ P p))).map Prod.snd) := by
  intro l
  induction l with
  | nil => intro _ n; simp
  | cons p t ih =>
    intro hnd n
    have hpt : p.2 ∉ t.map Prod.snd := (List.nodup_cons.mp (by simpa using hnd)).1
    have hndt : (t.map Prod.snd).Nodup := (List.nodup_cons.mp (by simpa using hnd)).2
    have hremsub : ∀ m, m ∈ (t.filter (fun q => decide (¬ P q))).map Prod.snd →
        m ∈ t.map Prod.snd := by
      intro m hm
      simp only [List.mem_map, List.mem_filter] at hm
      obtain ⟨q, ⟨hq, _⟩, rfl⟩ := hm
      exact List.mem_map_of_mem Prod.snd hq
    by_cases hP : P p
    · rw [List.filter_cons, if_pos (by simpa using hP),
        List.filter_cons, if_neg (by simpa using hP)]
      simp only [List.map_cons, List.mem_cons]
      by_cases hn : n = p.2
      · subst hn
        constructor
        · intro _
          exact ⟨Or.inl rfl, fun hmem => hpt (hremsub _ hmem)⟩
        · intro _
          exact Or.inl rfl
      · rw [ih hndt n]
        constructor
        · rintro (h | h)
          · exact absurd h hn
          · exact ⟨Or.inr h.1, h.2⟩
        · rintro ⟨h1, h2⟩
          rcases h1 with h1 | h1
          · exact absurd h1 hn
          · exact Or.inr ⟨h1, h2⟩
    · rw [List.filter_cons, if_neg (by simpa using hP),
        List.filter_cons, if_pos (by simpa using hP)]
      simp only [List.map_cons, List.mem_cons]
      by_cases hn : n = p.2
      · subst hn
        have hkeptsub : ∀ m, m ∈ (t.filter (fun q => decide (P q))).map Prod.snd →
            m ∈ t.map Prod.snd := by
          intro m hm
          simp only [List.mem_map, List.mem_filter] at hm
          obtain ⟨q, ⟨hq, _⟩, rfl⟩ := hm
          exact List.mem_map_of_mem Prod.snd hq
        constructor
        · intro h
          exact absurd (hkeptsub _ h) hpt
        · rintro ⟨_, h2⟩
          exact absurd (Or.inl rfl) h2
      · rw [ih hndt n]
        constructor
        · rintro ⟨h1, h2⟩
          refine ⟨Or.inr h1, fun hmem => ?_⟩
          rcases hmem with hmem | hmem
          · exact hn hmem
          · exact h2 hmem
        · rintro ⟨h1, h2⟩
          rcases h1 with h1 | h1
          · exact absurd h1 hn
          · exact ⟨h1, fun hmem => h2 (Or.inr hmem)⟩

/-- Claiming the head of the free list occupies it: the tail is the free
list of the grown occupied set. -/
theorem availFor_insert {total : Nat} {occ : List Nat} {slot : Nat} {rest : List Nat}
    (h : availFor total occ = slot :: rest) :
    availFor total (slot :: occ) = rest := by
  have hpred : ∀ i : Nat, (decide (i ∉ slot :: occ)) =
      (decide (i ≠ slot) && decide (i ∉ occ)) := by
    intro i
    by_cases h1 : i ∈ occ
    · simp [h1]
    · by_cases h2 : i = slot
      · simp [h1, h2]
      · simp [h1, h2]
  have hslot : slot ∉ rest := by
    have := availFor_nodup total occ
    rw [h] at this
    exact (List.nodup_cons.mp this).1
  unfold availFor at h ⊢
  calc (List.range total).filter (fun i => decide (i ∉ slot :: occ))
      = (List.range total).filter (fun i => decide (i ≠ slot) && decide (i ∉ occ)) := by
        apply List.filter_congr
        intro i _
        exact hpred i
    _ = ((List.range total).filter (fun i => decide (i ∉ occ))).filter
          (fun i => decide (i ≠ slot)) := by
        rw [List.filter_filter]
    _ = (slot :: rest).filter (fun i => decide (i ≠ slot)) := by rw [h]
    _ = rest := by
        rw [List.filter_cons, if_neg (by simp)]
        apply filter_eq_self_of
        intro a ha
        simp only [decide_eq_true_eq]
        intro hcontra
        exact hslot (hcontra ▸ ha)

/-- `rebuildAvailableSlots` (first variant), evaluated: when the deleted
list is duplicate-free and holds only valid free slots, the result is the
canonical ascending free list and a cleared deleted list. -/
theorem rebuild1_eq (s : SlotManager1)
    (hnd : s.deletedSlots.Nodup)
    (hok : ∀ n ∈ s.deletedSlots, n < s.totalSlots ∧ n ∉ s.occupiedSlots) :
    rebuildAvailableSlots1 s =
      { s with availableSlots := availFor s.totalSlots s.occupiedSlots,
               deletedSlots := [] } := by
  simp only [rebuildAvailableSlots1]
  have h0 : s.deletedSlots.foldl
      (fun acc slot =>
        if slot < s.totalSlots ∧ slot ∉ s.occupiedSlots then acc ++ [slot] else acc) []
      = s.deletedSlots := by
    rw [foldl_cond_append]
    rw [List.nil_append]
    apply filter_eq_self_of
    intro a ha
    simpa using hok a ha
  rw [h0, foldl_dedup s.occupiedSlots (List.range s.totalSlots) s.deletedSlots
    (List.nodup_range s.totalSlots)]
  have hmem : ∀ n, n ∈ s.deletedSlots ++
      (List.range s.totalSlots).filter
        (fun i => decide (i ∉ s.occupiedSlots ∧ i ∉ s.deletedSlots)) ↔
      n < s.totalSlots ∧ n ∉ s.occupiedSlots := by
    intro n
    rw [List.mem_append, List.mem_filter]
    simp only [List.mem_range, decide_eq_true_eq]
    constructor
    · rintro (h | ⟨h1, h2, _⟩)
      · exact hok n h
      · exact ⟨h1, h2⟩
    · rintro ⟨h1, h2⟩
      by_cases hd : n ∈ s.deletedSlots
      · exact Or.inl hd
      · exact Or.inr ⟨h1, h2, hd⟩
  have hnodup : (s.deletedSlots ++
      (List.range s.totalSlots).filter
        (fun i => decide (i ∉ s.occupiedSlots ∧ i ∉ s.deletedSlots))).Nodup := by
    rw [List.nodup_append]
    refine ⟨hnd, (List.nodup_range s.totalSlots).filter _, ?_⟩
    intro a ha hb
    rw [List.mem_filter] at hb
    have := hb.2
    simp only [decide_eq_true_eq] at this
    exact this.2 ha
  rw [sortNats_eq_availFor hnodup hmem]

/-- `rebuildAvailableSlots` (second variant), evaluated. -/
theorem rebuild2_eq (s : SlotManager2) :
    rebuildAvailableSlots2 s =
      { s with availableSlots := availFor s.maxSlots s.occupiedSlots } := by
  unfold rebuildAvailableSlots2
  rw [sortNats_eq_of_sorted (availFor_sorted s.maxSlots s.occupiedSlots)]

/-! Step-equation lemmas for the assignment loops. -/

theorem assignStep1_of_nil {st : SlotManager1} (photo : Photo)
    (h : st.availableSlots = []) : assignStep1 st photo = st := by
  unfold assignStep1
  rw [h]

theorem assignStep1_of_some {st : SlotManager1} (photo : Photo) {v : Nat}
    (h : mapLookup photo.id st.slotAssignments = some v) :
    assignStep1 st photo = st := by
  unfold assignStep1
  rw [h]
  rcases st.availableSlots with _ | ⟨slot, rest⟩ <;> rfl

theorem assignStep1_of_cons_none {st : SlotManager1} (photo : Photo) {slot : Nat}
    {rest : List Nat} (ha : st.availableSlots = slot :: rest)
    (hl : mapLookup photo.id st.slotAssignments = none) :
    assignStep1 st photo =
      { st with
        slotAssignments := st.slotAssignments ++ [(photo.id, slot)],
        occupiedSlots := setInsert slot st.occupiedSlots,
        availableSlots := rest } := by
  unfold assignStep1
  rw [ha, hl]

theorem preserveStep2_of_none {st : SlotManager2} (photo : Photo)
    (h : mapLookup photo.id st.slotAssignments = none) :
    preserveStep2 st photo = st := by
  unfold preserveStep2
  rw [h]

theorem preserveStep2_of_some {st : SlotManager2} (photo : Photo) {v : Nat}
    (h : mapLookup photo.id st.slotAssignments = some v) :
    preserveStep2 st photo =
      { st with
        occupiedSlots := setInsert v st.occupiedSlots,
        availableSlots := st.availableSlots.erase v } := by
  unfold preserveStep2
  rw [h]

theorem assignStep2_of_some {st : SlotManager2} (photo : Photo) {v : Nat}
    (h : mapLookup photo.id st.slotAssignments = some v) :
    assignStep2 st photo = st := by
  unfold assignStep2
  rw [h]

theorem assignStep2_of_none_nil {st : SlotManager2} (photo : Photo)
    (hl : mapLookup photo.id st.slotAssignments = none)
    (ha : st.availableSlots = []) : assignStep2 st photo = st := by
  unfold assignStep2
  rw [hl, ha]

theorem assignStep2_of_none_cons {st : SlotManager2} (photo : Photo) {slot : Nat}
    {rest : List Nat} (hl : mapLookup photo.id st.slotAssignments = none)
    (ha : st.availableSlots = slot :: rest) :
    assignStep2 st photo =
      if slot < st.maxSlots then
        { st with
          slotAssignments := st.slotAssignments ++ [(photo.id, slot)],
          occupiedSlots := setInsert slot st.occupiedSlots,
          availableSlots := rest }
      else { st with availableSlots := rest } := by
  unfold assignStep2
  rw [hl, ha]

/-- Core step preservation: assigning one new photo to the head of the
free list keeps the invariant of the first variant. -/
theorem assignStep1_inv (st : SlotManager1) (photo : Photo) (h : Inv1 st) :
    Inv1 (assignStep1 st photo) := by
  obtain ⟨hk, hv, hb, hon, hov, hvo, hav, hdel⟩ := h
  rcases havl : st.availableSlots with _ | ⟨slot, rest⟩
  · rw [assignStep1_of_nil photo havl]
    exact ⟨hk, hv, hb, hon, hov, hvo, hav, hdel⟩
  · rcases hlook : mapLookup photo.id st.slotAssignments with _ | v
    · have hslotmem : slot ∈ availFor st.totalSlots st.occupiedSlots := by
        rw [← hav, havl]
        exact List.mem_cons_self slot rest
      have hslot := mem_availFor.mp hslotmem
      have hkid : photo.id ∉ st.slotAssignments.map Prod.fst := by
        rw [mapLookup_eq_none_iff] at hlook
        intro hmem
        rw [List.mem_map] at hmem
        obtain ⟨p, hp, hpk⟩ := hmem
        exact hlook p hp hpk
      have hslotvals : slot ∉ st.slotAssignments.map Prod.snd := by
        intro hmem
        exact hslot.2 (hvo slot hmem)
      have hocc : setInsert slot st.occupiedSlots = slot :: st.occupiedSlots := by
        unfold setInsert
        rw [if_neg hslot.2]
      rw [assignStep1_of_cons_none photo havl hlook, hocc]
      refine ⟨?_, ?_, ?_, ?_, ?_, ?_, ?_, hdel⟩
      · rw [List.map_append]
        exact hk.append (by simp) (by
          intro a ha hb
          simp only [List.map_cons, List.map_nil, List.mem_singleton] at hb
          exact hkid (hb ▸ ha))
      · rw [List.map_append]
        exact hv.append (by simp) (by
          intro a ha hb
          simp only [List.map_cons, List.map_nil, List.mem_singleton] at hb
          exact hslotvals (hb ▸ ha))
      · intro p hp
        rw [List.mem_append] at hp
        rcases hp with hp | hp
        · exact hb p hp
        · simp only [List.mem_singleton] at hp
          rw [hp]
          exact hslot.1
      · exact List.nodup_cons.mpr ⟨hslot.2, hon⟩
      · intro n hn
        rw [List.mem_cons] at hn
        rw [List.map_append, List.mem_append]
        rcases hn with hn | hn
        · right; simp [hn]
        · left; exact hov n hn
      · intro n hn
        rw [List.map_append, List.mem_append] at hn
        rw [List.mem_cons]
        rcases hn with hn | hn
        · right; exact hvo n hn
        · left; simpa using hn
      · have : availFor st.totalSlots st.occupiedSlots = slot :: rest := by
          rw [← hav, havl]
        exact (availFor_insert this).symm
    · rw [assignStep1_of_some photo hlook]
      exact ⟨hk, hv, hb, hon, hov, hvo, hav, hdel⟩

/-- `updateSlotCount` preserves the invariant of the first variant. -/
theorem updateSlotCount1_inv (s : SlotManager1) (newTotal : Nat) (h : Inv1 s) :
    Inv1 (updateSlotCount1 s newTotal) := by
  obtain ⟨hk, hv, hb, hon, hov, hvo, hav, hdel⟩ := h
  by_cases heq : newTotal = s.totalSlots
  · unfold updateSlotCount1
    rw [if_pos heq]
    exact ⟨hk, hv, hb, hon, hov, hvo, hav, hdel⟩
  · simp only [updateSlotCount1, if_neg heq]
    set Lrem := s.slotAssignments.filter (fun p => decide (newTotal ≤ p.2)) with hLrem
    set occ2 := Lrem.foldl (fun occ p => setDelete p.2 occ) s.occupiedSlots with hocc2
    obtain ⟨hocc2nd, hocc2mem⟩ := foldl_setDelete Lrem s.occupiedSlots hon
    rw [rebuild1_eq _ (by simp [hdel]) (by simp [hdel])]
    refine ⟨?_, ?_, ?_, hocc2nd, ?_, ?_, rfl, rfl⟩
    · exact hk.sublist ((List.filter_sublist _).map Prod.fst)
    · exact hv.sublist ((List.filter_sublist _).map Prod.snd)
    · intro p hp
      rw [List.mem_filter] at hp
      simpa using hp.2
    · intro n hn
      have hmem := (hocc2mem n).mp hn
      have hval : n ∈ s.slotAssignments.map Prod.snd := hov n hmem.1
      have hrem : ¬ (n ∈ s.slotAssignments.map Prod.snd ∧ newTotal ≤ n) := by
        intro hcontra
        exact hmem.2 ((mem_vals_filter_snd (P := fun m => newTotal ≤ m)).mpr hcontra)
      rw [mem_vals_filter_snd (P := fun m => m < newTotal)]
      refine ⟨hval, ?_⟩
      by_contra hlt
      exact hrem ⟨hval, Nat.le_of_not_lt hlt⟩
    · intro n hn
      rw [mem_vals_filter_snd (P := fun m => m < newTotal)] at hn
      rw [hocc2mem n]
      refine ⟨hvo n hn.1, ?_⟩
      intro hcontra
      rw [mem_vals_filter_snd (P := fun m => newTotal ≤ m)] at hcontra
      exact Nat.not_le_of_lt hn.2 hcontra.2

/-- `assignSlots` preserves the invariant of the first variant. -/
theorem assignSlots1_inv (s : SlotManager1) (photos : List Photo) (h : Inv1 s) :
    Inv1 (assignSlots1 s photos) := by
  obtain ⟨hk, hv, hb, hon, hov, hvo, hav, hdel⟩ := h
  simp only [assignSlots1]
  apply foldl_preserves assignStep1_inv
  by_cases hrem : s.slotAssignments.filter
      (fun p : String × Nat => decide (p.1 ∉ (safeFilter photos).map Photo.id)) = []
  · rw [if_pos hrem]
    have hfilter : s.slotAssignments.filter
        (fun p : String × Nat => decide (p.1 ∈ (safeFilter photos).map Photo.id))
          = s.slotAssignments :=
      filter_all_of_filter_not_nil
        (fun p : String × Nat => p.1 ∈ (safeFilter photos).map Photo.id) hrem
    rw [hrem, hfilter]
    refine ⟨hk, hv, hb, hon, hov, hvo, ?_, ?_⟩
    · simpa using hav
    · simp [hdel]
  · rw [if_neg hrem]
    set ids := (safeFilter photos).map Photo.id with hids
    set Lrem := s.slotAssignments.filter (fun p => decide (p.1 ∉ ids)) with hLrem
    set Lkept := s.slotAssignments.filter (fun p => decide (p.1 ∈ ids)) with hLkept
    set occ1 := Lrem.foldl (fun occ p => setDelete p.2 occ) s.occupiedSlots with hocc1
    obtain ⟨hocc1nd, hocc1mem⟩ := foldl_setDelete Lrem s.occupiedSlots hon
    have hremnd : (Lrem.map Prod.snd).Nodup :=
      hv.sublist ((List.filter_sublist _).map Prod.snd)
    have hremok : ∀ n ∈ s.deletedSlots ++ Lrem.map Prod.snd,
        n < s.totalSlots ∧ n ∉ occ1 := by
      intro n hn
      rw [hdel, List.nil_append] at hn
      have hbnd : n < s.totalSlots := by
        rw [List.mem_map] at hn
        obtain ⟨p, hp, hpn⟩ := hn
        rw [List.mem_filter] at hp
        exact hpn ▸ hb p hp.1
      refine ⟨hbnd, fun hcontra => ?_⟩
      exact ((hocc1mem n).mp hcontra).2 hn
    rw [rebuild1_eq _ (by rw [hdel, List.nil_append]; exact hremnd) hremok]
    refine ⟨?_, ?_, ?_, hocc1nd, ?_, ?_, rfl, rfl⟩
    · exact hk.sublist ((List.filter_sublist _).map Prod.fst)
    · exact hv.sublist ((List.filter_sublist _).map Prod.snd)
    · intro p hp
      rw [List.mem_filter] at hp
      exact hb p hp.1
    · intro n hn
      have hmem := (hocc1mem n).mp hn
      rw [mem_vals_filter_split (P := fun p => p.1 ∈ ids) hv n]
      exact ⟨hov n hmem.1, hmem.2⟩
    · intro n hn
      rw [mem_vals_filter_split (P := fun p => p.1 ∈ ids) hv n] at hn
      rw [hocc1mem n]
      exact ⟨hvo n hn.1, hn.2⟩

/-- A fresh first-variant manager satisfies the invariant. -/
theorem inv1_new (n : Nat) : Inv1 (SlotManager1.new n) := by
  apply updateSlotCount1_inv
  refine ⟨by simp, by simp, by simp, by simp, by simp, by simp, ?_, rfl⟩
  show ([] : List Nat) = availFor 0 []
  rfl

theorem foldl_id_of_fix {α σ : Type} {f : σ → α → σ} {P : σ → Prop}
    (hfix : ∀ s a, P s → f s a = s) :
    ∀ (l : List α) (s : σ), P s → l.foldl f s = s := by
  intro l
  induction l with
  | nil => intro s _; rfl
  | cons a t ih =>
    intro s hs
    rw [List.foldl_cons, hfix s a hs]
    exact ih s hs

/-- Under the invariant the preserve loop of the second variant does
nothing: the slot of a surviving photo is already occupied and already
missing from the available list. -/
theorem preserveStep2_id (st : SlotManager2) (photo : Photo) (h : Inv2 st) :
    preserveStep2 st photo = st := by
  obtain ⟨hk, hv, hb, hon, hov, hvo, hav⟩ := h
  rcases hlook : mapLookup photo.id st.slotAssignments with _ | v
  · exact preserveStep2_of_none photo hlook
  · have hocc : v ∈ st.occupiedSlots := by
      apply hvo
      exact List.mem_map_of_mem Prod.snd (mapLookup_mem hlook)
    have hins : setInsert v st.occupiedSlots = st.occupiedSlots := by
      unfold setInsert
      rw [if_pos hocc]
    have herase : st.availableSlots.erase v = st.availableSlots := by
      apply List.erase_of_not_mem
      rw [hav]
      intro hmem
      exact (mem_availFor.mp hmem).2 hocc
    rw [preserveStep2_of_some photo hlook, hins, herase]

/-- The assignment loop of the second variant preserves the invariant. -/
theorem assignStep2_inv (st : SlotManager2) (photo : Photo) (h : Inv2 st) :
    Inv2 (assignStep2 st photo) := by
  obtain ⟨hk, hv, hb, hon, hov, hvo, hav⟩ := h
  rcases hlook : mapLookup photo.id st.slotAssignments with _ | v
  · rcases havl : st.availableSlots with _ | ⟨slot, rest⟩
    · rw [assignStep2_of_none_nil photo hlook havl]
      exact ⟨hk, hv, hb, hon, hov, hvo, hav⟩
    · have hslotmem : slot ∈ availFor st.maxSlots st.occupiedSlots := by
        rw [← hav, havl]
        exact List.mem_cons_self slot rest
      have hslot := mem_availFor.mp hslotmem
      have hkid : photo.id ∉ st.slotAssignments.map Prod.fst := by
        rw [mapLookup_eq_none_iff] at hlook
        intro hmem
        rw [List.mem_map] at hmem
        obtain ⟨p, hp, hpk⟩ := hmem
        exact hlook p hp hpk
      have hslotvals : slot ∉ st.slotAssignments.map Prod.snd := by
        intro hmem
        exact hslot.2 (hvo slot hmem)
      have hocc : setInsert slot st.occupiedSlots = slot :: st.occupiedSlots := by
        unfold setInsert
        rw [if_neg hslot.2]
      rw [assignStep2_of_none_cons photo hlook havl, if_pos hslot.1, hocc]
      refine ⟨?_, ?_, ?_, ?_, ?_, ?_, ?_⟩
      · rw [List.map_append]
        exact hk.append (by simp) (by
          intro a ha hb
          simp only [List.map_cons, List.map_nil, List.mem_singleton] at hb
          exact hkid (hb ▸ ha))
      · rw [List.map_append]
        exact hv.append (by simp) (by
          intro a ha hb
          simp only [List.map_cons, List.map_nil, List.mem_singleton] at hb
          exact hslotvals (hb ▸ ha))
      · intro p hp
        rw [List.mem_append] at hp
        rcases hp with hp | hp
        · exact hb p hp
        · simp only [List.mem_singleton] at hp
          rw [hp]
          exact hslot.1
      · exact List.nodup_cons.mpr ⟨hslot.2, hon⟩
      · intro n hn
        rw [List.mem_cons] at hn
        rw [List.map_append, List.mem_append]
        rcases hn with hn | hn
        · right; simp [hn]
        · left; exact hov n hn
      · intro n hn
        rw [List.map_append, List.mem_append] at hn
        rw [List.mem_cons]
        rcases hn with hn | hn
        · right; exact hvo n hn
        · left; simpa using hn
      · have : availFor st.maxSlots st.occupiedSlots = slot :: rest := by
          rw [← hav, havl]
        exact (availFor_insert this).symm
  · rw [assignStep2_of_some photo hlook]
    exact ⟨hk, hv, hb, hon, hov, hvo, hav⟩

/-- `updateSlotCount` preserves the invariant of the second variant. -/
theorem updateSlotCount2_inv (s : SlotManager2) (newTotal : Nat) (h : Inv2 s) :
    Inv2 (updateSlotCount2 s newTotal) := by
  obtain ⟨hk, hv, hb, hon, hov, hvo, hav⟩ := h
  have h1 : rebuildAvailableSlots2 { s with maxSlots := newTotal } =
      { s with maxSlots := newTotal,
               availableSlots := availFor newTotal s.occupiedSlots } := by
    rw [rebuild2_eq]
  simp only [updateSlotCount2, h1]
  set Lrem := s.slotAssignments.filter (fun p => decide (newTotal ≤ p.2)) with hLrem
  set occ2 := Lrem.foldl (fun occ p => setDelete p.2 occ) s.occupiedSlots with hocc2
  obtain ⟨hocc2nd, hocc2mem⟩ := foldl_setDelete Lrem s.occupiedSlots hon
  rw [rebuild2_eq]
  refine ⟨?_, ?_, ?_, hocc2nd, ?_, ?_, rfl⟩
  · exact hk.sublist ((List.filter_sublist _).map Prod.fst)
  · exact hv.sublist ((List.filter_sublist _).map Prod.snd)
  · intro p hp
    rw [List.mem_filter] at hp
    simpa using hp.2
  · intro n hn
    have hmem := (hocc2mem n).mp hn
    have hval : n ∈ s.slotAssignments.map Prod.snd := hov n hmem.1
    have hrem : ¬ (n ∈ s.slotAssignments.map Prod.snd ∧ newTotal ≤ n) := by
      intro hcontra
      exact hmem.2 ((mem_vals_filter_snd (P := fun m => newTotal ≤ m)).mpr hcontra)
    rw [mem_vals_filter_snd (P := fun m => m < newTotal)]
    refine ⟨hval, ?_⟩
    by_contra hlt
    exact hrem ⟨hval, Nat.le_of_not_lt hlt⟩
  · intro n hn
    rw [mem_vals_filter_snd (P := fun m => m < newTotal)] at hn
    rw [hocc2mem n]
    refine ⟨hvo n hn.1, ?_⟩
    intro hcontra
    rw [mem_vals_filter_snd (P := fun m => newTotal ≤ m)] at hcontra
    exact Nat.not_le_of_lt hn.2 hcontra.2

/-- Folding the sorted push of freed slots: with a sorted starting list the
result is the sort of everything together. -/
theorem foldl_sortAppend (l : List (String × Nat)) :
    ∀ av : List Nat, List.Sorted (· ≤ ·) av →
      l.foldl (fun av p => sortNats (av ++ [p.2])) av
        = sortNats (av ++ l.map Prod.snd) := by
  induction l with
  | nil =>
    intro av hav
    rw [List.foldl_nil, List.map_nil, List.append_nil, sortNats_eq_of_sorted hav]
  | cons p t ih =>
    intro av hav
    rw [List.foldl_cons, ih (sortNats (av ++ [p.2])) (sortNats_sorted _)]
    apply sortNats_congr_perm
    have h1 : List.Perm (sortNats (av ++ [p.2]) ++ t.map Prod.snd)
        ((av ++ [p.2]) ++ t.map Prod.snd) :=
      (sortNats_perm _).append_right _
    have h2 : (av ++ [p.2]) ++ t.map Prod.snd = av ++ (p :: t).map Prod.snd := by
      rw [List.append_assoc]
      rfl
    exact h2 ▸ h1

/-- The state after the removal phase of `assignSlots` (second variant)
satisfies the invariant. -/
theorem assignSlots2_pre_inv (s : SlotManager2) (photos : List Photo) (h : Inv2 s) :
    Inv2
      { s with
        slotAssignments := s.slotAssignments.filter
          (fun p : String × Nat => decide (p.1 ∈ (safeFilter photos).map Photo.id)),
        occupiedSlots := (s.slotAssignments.filter
          (fun p : String × Nat =>
            decide (p.1 ∉ (safeFilter photos).map Photo.id))).foldl
          (fun occ p => setDelete p.2 occ) s.occupiedSlots,
        availableSlots := (s.slotAssignments.filter
          (fun p : String × Nat =>
            decide (p.1 ∉ (safeFilter photos).map Photo.id))).foldl
          (fun av p => sortNats (av ++ [p.2])) s.availableSlots } := by
  obtain ⟨hk, hv, hb, hon, hov, hvo, hav⟩ := h
  set ids := (safeFilter photos).map Photo.id with hids
  set Lrem := s.slotAssignments.filter (fun p => decide (p.1 ∉ ids)) with hLrem
  set occ1 := Lrem.foldl (fun occ p => setDelete p.2 occ) s.occupiedSlots with hocc1
  obtain ⟨hocc1nd, hocc1mem⟩ := foldl_setDelete Lrem s.occupiedSlots hon
  have hremsub : ∀ n ∈ Lrem.map Prod.snd, n ∈ s.slotAssignments.map Prod.snd := by
    intro n hn
    rw [List.mem_map] at hn
    obtain ⟨p, hp, hpn⟩ := hn
    rw [List.mem_filter] at hp
    exact hpn ▸ List.mem_map_of_mem Prod.snd hp.1
  have havfold : Lrem.foldl (fun av p => sortNats (av ++ [p.2])) s.availableSlots
      = availFor s.maxSlots occ1 := by
    rw [foldl_sortAppend Lrem s.availableSlots (hav ▸ availFor_sorted _ _)]
    apply sortNats_eq_availFor
    · rw [hav]
      apply List.Nodup.append (availFor_nodup _ _)
        (hv.sublist ((List.filter_sublist _).map Prod.snd))
      intro a ha hb2
      exact (mem_availFor.mp ha).2 (hvo a (hremsub a hb2))
    · intro n
      rw [hav, List.mem_append, mem_availFor]
      constructor
      · rintro (⟨h1, h2⟩ | h1)
        · refine ⟨h1, fun hcontra => h2 ((hocc1mem n).mp hcontra).1⟩
        · refine ⟨?_, fun hcontra => ((hocc1mem n).mp hcontra).2 h1⟩
          rw [List.mem_map] at h1
          obtain ⟨p, hp, hpn⟩ := h1
          rw [List.mem_filter] at hp
          exact hpn ▸ hb p hp.1
      · rintro ⟨h1, h2⟩
        by_cases hmem : n ∈ Lrem.map Prod.snd
        · exact Or.inr hmem
        · left
          refine ⟨h1, fun hcontra => h2 ((hocc1mem n).mpr ⟨hcontra, hmem⟩)⟩
  refine ⟨?_, ?_, ?_, hocc1nd, ?_, ?_, ?_⟩
  · exact hk.sublist ((List.filter_sublist _).map Prod.fst)
  · exact hv.sublist ((List.filter_sublist _).map Prod.snd)
  · intro p hp
    rw [List.mem_filter] at hp
    exact hb p hp.1
  · intro n hn
    have hmem := (hocc1mem n).mp hn
    rw [mem_vals_filter_split (P := fun p => p.1 ∈ ids) hv n]
    exact ⟨hov n hmem.1, hmem.2⟩
  · intro n hn
    rw [mem_vals_filter_split (P := fun p => p.1 ∈ ids) hv n] at hn
    rw [hocc1mem n]
    exact ⟨hvo n hn.1, hn.2⟩
  · exact havfold

/-- `assignSlots` preserves the invariant of the second variant. -/
theorem assignSlots2_inv (s : SlotManager2) (photos : List Photo) (h : Inv2 s) :
    Inv2 (assignSlots2 s photos) := by
  simp only [assignSlots2]
  apply foldl_preserves assignStep2_inv
  have hpre := assignSlots2_pre_inv s photos h
  rw [foldl_id_of_fix preserveStep2_id (safeFilter photos) _ hpre]
  exact hpre

/-- A fresh second-variant manager satisfies the invariant. -/
theorem inv2_new (n : Nat) : Inv2 (SlotManager2.new n) := by
  apply updateSlotCount2_inv
  refine ⟨by simp, by simp, by simp, by simp, by simp, by simp, ?_⟩
  show ([] : List Nat) = availFor 0 []
  rfl

/-- Any sequence of operations keeps the invariant of the first variant. -/
theorem run1_inv (s : SlotManager1) (ops : List SMOp) (h : Inv1 s) :
    Inv1 (run1 s ops) := by
  unfold run1
  apply foldl_preserves _ ops s h
  intro st op hst
  cases op with
  | reconcile ps => exact assignSlots1_inv st ps hst
  | resize n => exact updateSlotCount1_inv st n hst

/-- Any sequence of operations keeps the invariant of the second variant. -/
theorem run2_inv (s : SlotManager2) (ops : List SMOp) (h : Inv2 s) :
    Inv2 (run2 s ops) := by
  unfold run2
  apply foldl_preserves _ ops s h
  intro st op hst
  cases op with
  | reconcile ps => exact assignSlots2_inv st ps hst
  | resize n => exact updateSlotCount2_inv st n hst

/-- Duplicate-free values make the association list injective. -/
theorem nodup_vals_inj :
    ∀ {l : List (String × Nat)}, (l.map Prod.snd).Nodup →
      ∀ p ∈ l, ∀ q ∈ l, p.2 = q.2 → p = q := by
  intro l
  induction l with
  | nil => intro _ p hp; simp at hp
  | cons a t ih =>
    intro hnd p hp q hq heq
    have hat : a.2 ∉ t.map Prod.snd := (List.nodup_cons.mp (by simpa using hnd)).1
    have hndt : (t.map Prod.snd).Nodup := (List.nodup_cons.mp (by simpa using hnd)).2
    rcases List.mem_cons.mp hp with hp | hp <;> rcases List.mem_cons.mp hq with hq | hq
    · rw [hp, hq]
    · exfalso
      apply hat
      rw [hp] at heq
      rw [heq]
      exact List.mem_map_of_mem Prod.snd hq
    · exfalso
      apply hat
      rw [hq] at heq
      rw [← heq]
      exact List.mem_map_of_mem Prod.snd hp
    · exact ih hndt p hp q hq heq

/-! ### Stability support lemmas -/

theorem assignStep1_lookup {st : SlotManager1} {k : String} {v : Nat} (photo : Photo)
    (h : mapLookup k st.slotAssignments = some v) :
    mapLookup k (assignStep1 st photo).slotAssignments = some v := by
  rcases havl : st.availableSlots with _ | ⟨slot, rest⟩
  · rw [assignStep1_of_nil photo havl]
    exact h
  · rcases hlook : mapLookup photo.id st.slotAssignments with _ | w
    · rw [assignStep1_of_cons_none photo havl hlook]
      exact mapLookup_append_some h
    · rw [assignStep1_of_some photo hlook]
      exact h

theorem foldl_assign1_lookup {k : String} {v : Nat} :
    ∀ (l : List Photo) (st : SlotManager1),
      mapLookup k st.slotAssignments = some v →
      mapLookup k ((l.foldl assignStep1 st)).slotAssignments = some v := by
  intro l st h
  exact foldl_preserves (P := fun st => mapLookup k st.slotAssignments = some v)
    (fun st photo hst => assignStep1_lookup photo hst) l st h

theorem rebuild1_assignments (s : SlotManager1) :
    (rebuildAvailableSlots1 s).slotAssignments = s.slotAssignments := rfl

/-- Reconcile of the first variant never touches the assignment of a photo
that is still in the live list. -/
theorem assignSlots1_stable (s : SlotManager1) (photos : List Photo)
    {pid : String} {v : Nat}
    (hmem : pid ∈ (safeFilter photos).map Photo.id)
    (h : mapLookup pid s.slotAssignments = some v) :
    mapLookup pid (assignSlots1 s photos).slotAssignments = some v := by
  simp only [assignSlots1]
  apply foldl_assign1_lookup
  have hfilt : mapLookup pid
      (s.slotAssignments.filter
        (fun p : String × Nat => decide (p.1 ∈ (safeFilter photos).map Photo.id)))
      = some v := by
    rw [mapLookup_filter, h]
    intro p hp
    rw [hp]
    simpa using hmem
  by_cases hrem : s.slotAssignments.filter
      (fun p : String × Nat => decide (p.1 ∉ (safeFilter photos).map Photo.id)) = []
  · rw [if_pos hrem]
    exact hfilt
  · rw [if_neg hrem, rebuild1_assignments]
    exact hfilt

theorem preserveStep2_assignments (st : SlotManager2) (photo : Photo) :
    (preserveStep2 st photo).slotAssignments = st.slotAssignments := by
  rcases hlook : mapLookup photo.id st.slotAssignments with _ | v
  · rw [preserveStep2_of_none photo hlook]
  · rw [preserveStep2_of_some photo hlook]

theorem assignStep2_lookup {st : SlotManager2} {k : String} {v : Nat} (photo : Photo)
    (h : mapLookup k st.slotAssignments = some v) :
    mapLookup k (assignStep2 st photo).slotAssignments = some v := by
  rcases hlook : mapLookup photo.id st.slotAssignments with _ | w
  · rcases havl : st.availableSlots with _ | ⟨slot, rest⟩
    · rw [assignStep2_of_none_nil photo hlook havl]
      exact h
    · rw [assignStep2_of_none_cons photo hlook havl]
      by_cases hlt : slot < st.maxSlots
      · rw [if_pos hlt]
        exact mapLookup_append_some h
      · rw [if_neg hlt]
        exact h
  · rw [assignStep2_of_some photo hlook]
    exact h

/-- Reconcile of the second variant never touches the assignment of a
photo that is still in the live list. -/
theorem assignSlots2_stable (s : SlotManager2) (photos : List Photo)
    {pid : String} {v : Nat}
    (hmem : pid ∈ (safeFilter photos).map Photo.id)
    (h : mapLookup pid s.slotAssignments = some v) :
    mapLookup pid (assignSlots2 s photos).slotAssignments = some v := by
  simp only [assignSlots2]
  apply foldl_preserves (P := fun st : SlotManager2 => mapLookup pid st.slotAssignments = some v)
    (fun st photo hst => assignStep2_lookup photo hst)
  apply foldl_preserves (P := fun st : SlotManager2 => mapLookup pid st.slotAssignments = some v)
    (fun st photo hst => by
      show mapLookup pid (preserveStep2 st photo).slotAssignments = some v
      rw [preserveStep2_assignments]
      exact hst)
  show mapLookup pid
      (s.slotAssignments.filter
        (fun p : String × Nat => decide (p.1 ∈ (safeFilter photos).map Photo.id)))
      = some v
  rw [mapLookup_filter, h]
  intro p hp
  rw [hp]
  simpa using hmem

/-! ### Idempotence support lemmas, first variant -/

/-- With an empty available list the assignment loop does nothing. -/
theorem foldl_assign1_nil_avail (l : List Photo) (st : SlotManager1)
    (h : st.availableSlots = []) : l.foldl assignStep1 st = st :=
  foldl_id_of_fix (P := fun st => st.availableSlots = [])
    (fun _ a hs => assignStep1_of_nil a hs) l st h

/-- After the assignment loop, either every processed photo has an
assignment or the available list has been exhausted. -/
theorem foldl_assign1_post :
    ∀ (l : List Photo) (st : SlotManager1),
      (∀ x ∈ l, (mapLookup x.id ((l.foldl assignStep1 st)).slotAssignments).isSome = true)
      ∨ (l.foldl assignStep1 st).availableSlots = [] := by
  intro l
  induction l with
  | nil => intro st; left; intro x hx; exact absurd hx (List.not_mem_nil x)
  | cons x t ih =>
    intro st
    rw [List.foldl_cons]
    rcases havl : st.availableSlots with _ | ⟨slot, rest⟩
    · right
      rw [assignStep1_of_nil x havl, foldl_assign1_nil_avail t st havl]
      exact havl
    · rcases hlook : mapLookup x.id st.slotAssignments with _ | w
      · have hx : mapLookup x.id (assignStep1 st x).slotAssignments = some slot := by
          rw [assignStep1_of_cons_none x havl hlook]
          show mapLookup x.id (st.slotAssignments ++ [(x.id, slot)]) = some slot
          rw [mapLookup_append_none hlook, mapLookup_cons]
          simp
        rcases ih (assignStep1 st x) with h | h
        · left
          intro y hy
          rcases List.mem_cons.mp hy with hy | hy
          · subst hy
            rw [foldl_assign1_lookup t _ hx]
            rfl
          · exact h y hy
        · right; exact h
      · rw [assignStep1_of_some x hlook]
        rcases ih st with h | h
        · left
          intro y hy
          rcases List.mem_cons.mp hy with hy | hy
          · subst hy
            rw [foldl_assign1_lookup t _ hlook]
            rfl
          · exact h y hy
        · right; exact h

/-- When every photo is already assigned or no slot is available, the
assignment loop is the identity. -/
theorem foldl_assign1_id :
    ∀ (l : List Photo) (st : SlotManager1),
      (∀ x ∈ l, (mapLookup x.id st.slotAssignments).isSome = true ∨
        st.availableSlots = []) →
      l.foldl assignStep1 st = st := by
  intro l
  induction l with
  | nil => intro st _; rfl
  | cons x t ih =>
    intro st h
    rw [List.foldl_cons]
    have hx := h x (List.mem_cons_self x t)
    have hstep : assignStep1 st x = st := by
      rcases hx with hx | hx
      · obtain ⟨w, hw⟩ := Option.isSome_iff_exists.mp hx
        exact assignStep1_of_some x hw
      · exact assignStep1_of_nil x hx
    rw [hstep]
    exact ih st (fun y hy => h y (List.mem_cons_of_mem x hy))

/-- Every assignment after the loop either predates it or belongs to one
of the processed photos. -/
theorem foldl_assign1_mem :
    ∀ (l : List Photo) (st : SlotManager1) (p : String × Nat),
      p ∈ ((l.foldl assignStep1 st)).slotAssignments →
      p ∈ st.slotAssignments ∨ ∃ x ∈ l, p.1 = x.id := by
  intro l
  induction l with
  | nil => intro st p hp; left; exact hp
  | cons x t ih =>
    intro st p hp
    rw [List.foldl_cons] at hp
    rcases ih (assignStep1 st x) p hp with h | ⟨y, hy, hpy⟩
    · rcases havl : st.availableSlots with _ | ⟨slot, rest⟩
      · rw [assignStep1_of_nil x havl] at h
        exact Or.inl h
      · rcases hlook : mapLookup x.id st.slotAssignments with _ | w
        · rw [assignStep1_of_cons_none x havl hlook] at h
          have h2 : p ∈ st.slotAssignments ++ [(x.id, slot)] := h
          rcases List.mem_append.mp h2 with h3 | h3
          · exact Or.inl h3
          · right
            refine ⟨x, List.mem_cons_self x t, ?_⟩
            simp only [List.mem_singleton] at h3
            rw [h3]
        · rw [assignStep1_of_some x hlook] at h
          exact Or.inl h
    · exact Or.inr ⟨y, List.mem_cons_of_mem x hy, hpy⟩

/-- The assignments component of the intermediate state of `assignSlots`
(first variant) is the kept filter, in both branches of the rebuild. -/
theorem assignSlots1_mid_assignments (s : SlotManager1) (photos : List Photo) :
    (if s.slotAssignments.filter
        (fun p : String × Nat => decide (p.1 ∉ (safeFilter photos).map Photo.id)) = []
      then
        { s with
          deletedSlots := s.deletedSlots ++
            (s.slotAssignments.filter
              (fun p : String × Nat =>
                decide (p.1 ∉ (safeFilter photos).map Photo.id))).map Prod.snd,
          slotAssignments := s.slotAssignments.filter
            (fun p : String × Nat => decide (p.1 ∈ (safeFilter photos).map Photo.id)),
          occupiedSlots := (s.slotAssignments.filter
            (fun p : String × Nat =>
              decide (p.1 ∉ (safeFilter photos).map Photo.id))).foldl
            (fun occ p => setDelete p.2 occ) s.occupiedSlots }
      else rebuildAvailableSlots1
        { s with
          deletedSlots := s.deletedSlots ++
            (s.slotAssignments.filter
              (fun p : String × Nat =>
                decide (p.1 ∉ (safeFilter photos).map Photo.id))).map Prod.snd,
          slotAssignments := s.slotAssignments.filter
            (fun p : String × Nat => decide (p.1 ∈ (safeFilter photos).map Photo.id)),
          occupiedSlots := (s.slotAssignments.filter
            (fun p : String × Nat =>
              decide (p.1 ∉ (safeFilter photos).map Photo.id))).foldl
            (fun occ p => setDelete p.2 occ) s.occupiedSlots }).slotAssignments
    = s.slotAssignments.filter
        (fun p : String × Nat => decide (p.1 ∈ (safeFilter photos).map Photo.id)) := by
  by_cases hrem : s.slotAssignments.filter
      (fun p : String × Nat => decide (p.1 ∉ (safeFilter photos).map Photo.id)) = []
  · rw [if_pos hrem]
  · rw [if_neg hrem, rebuild1_assignments]

/-- All assignments surviving `assignSlots` (first variant) belong to live
photos. -/
theorem assignSlots1_keys (s : SlotManager1) (photos : List Photo) :
    ∀ p ∈ (assignSlots1 s photos).slotAssignments,
      p.1 ∈ (safeFilter photos).map Photo.id := by
  simp only [assignSlots1]
  intro p hp
  rcases foldl_assign1_mem _ _ p hp with h | ⟨x, hx, hpx⟩
  · rw [assignSlots1_mid_assignments s photos] at h
    rw [List.mem_filter] at h
    simpa using h.2
  · rw [hpx]
    exact List.mem_map_of_mem Photo.id ((sortPhotos_perm _).mem_iff.mp hx)

/-- After `assignSlots` (first variant) every live photo is assigned or
the available list is exhausted. -/
theorem assignSlots1_post (s : SlotManager1) (photos : List Photo) :
    (∀ x ∈ safeFilter photos,
      (mapLookup x.id (assignSlots1 s photos).slotAssignments).isSome = true)
    ∨ (assignSlots1 s photos).availableSlots = [] := by
  simp only [assignSlots1]
  rcases foldl_assign1_post (sortPhotos (safeFilter photos)) _ with h | h
  · left
    intro x hx
    exact h x ((sortPhotos_perm _).mem_iff.mpr hx)
  · right
    exact h

/-! ### Idempotence support lemmas, second variant -/

/-- With an empty available list the assignment loop of the second
variant does nothing. -/
theorem foldl_assign2_nil_avail (l : List Photo) (st : SlotManager2)
    (h : st.availableSlots = []) : l.foldl assignStep2 st = st :=
  foldl_id_of_fix (P := fun st => st.availableSlots = [])
    (fun s2 a hs => by
      rcases hlook : mapLookup a.id s2.slotAssignments with _ | w
      · exact assignStep2_of_none_nil a hlook hs
      · exact assignStep2_of_some a hlook) l st h

theorem foldl_assign2_lookup {k : String} {v : Nat} :
    ∀ (l : List Photo) (st : SlotManager2),
      mapLookup k st.slotAssignments = some v →
      mapLookup k ((l.foldl assignStep2 st)).slotAssignments = some v := by
  intro l st h
  exact foldl_preserves (P := fun st => mapLookup k st.slotAssignments = some v)
    (fun st photo hst => assignStep2_lookup photo hst) l st h

/-- After the assignment loop of the second variant (run from an invariant
state), either every processed photo has an assignment or the available
list has been exhausted. -/
theorem foldl_assign2_post :
    ∀ (l : List Photo) (st : SlotManager2), Inv2 st →
      (∀ x ∈ l, (mapLookup x.id ((l.foldl assignStep2 st)).slotAssignments).isSome = true)
      ∨ (l.foldl assignStep2 st).availableSlots = [] := by
  intro l
  induction l with
  | nil => intro st _; left; intro x hx; exact absurd hx (List.not_mem_nil x)
  | cons x t ih =>
    intro st hInv
    rw [List.foldl_cons]
    rcases hlook : mapLookup x.id st.slotAssignments with _ | w
    · rcases havl : st.availableSlots with _ | ⟨slot, rest⟩
      · right
        rw [assignStep2_of_none_nil x hlook havl, foldl_assign2_nil_avail t st havl]
        exact havl
      · have hslot : slot < st.maxSlots := by
          have hmem : slot ∈ availFor st.maxSlots st.occupiedSlots := by
            rw [← hInv.2.2.2.2.2.2, havl]
            exact List.mem_cons_self _ _
          exact (mem_availFor.mp hmem).1
        have hx : mapLookup x.id (assignStep2 st x).slotAssignments = some slot := by
          rw [assignStep2_of_none_cons x hlook havl, if_pos hslot]
          show mapLookup x.id (st.slotAssignments ++ [(x.id, slot)]) = some slot
          rw [mapLookup_append_none hlook, mapLookup_cons]
          simp
        rcases ih (assignStep2 st x) (assignStep2_inv st x hInv) with h | h
        · left
          intro y hy
          rcases List.mem_cons.mp hy with hy | hy
          · subst hy
            rw [foldl_assign2_lookup t _ hx]
            rfl
          · exact h y hy
        · right; exact h
    · rw [assignStep2_of_some x hlook]
      rcases ih st hInv with h | h
      · left
        intro y hy
        rcases List.mem_cons.mp hy with hy | hy
        · subst hy
          rw [foldl_assign2_lookup t _ hlook]
          rfl
        · exact h y hy
      · right; exact h

/-- When every photo is already assigned or no slot is available, the
assignment loop of the second variant is the identity. -/
theorem foldl_assign2_id :
    ∀ (l : List Photo) (st : SlotManager2),
      (∀ x ∈ l, (mapLookup x.id st.slotAssignments).isSome = true ∨
        st.availableSlots = []) →
      l.foldl assignStep2 st = st := by
  intro l
  induction l with
  | nil => intro st _; rfl
  | cons x t ih =>
    intro st h
    rw [List.foldl_cons]
    have hx := h x (List.mem_cons_self x t)
    have hstep : assignStep2 st x = st := by
      rcases hx with hx | hx
      · obtain ⟨w, hw⟩ := Option.isSome_iff_exists.mp hx
        exact assignStep2_of_some x hw
      · rcases hlook : mapLookup x.id st.slotAssignments with _ | w
        · exact assignStep2_of_none_nil x hlook hx
        · exact assignStep2_of_some x hlook
    rw [hstep]
    exact ih st (fun y hy => h y (List.mem_cons_of_mem x hy))

/-- Every assignment after the loop of the second variant either predates
it or belongs to one of the processed photos. -/
theorem foldl_assign2_mem :
    ∀ (l : List Photo) (st : SlotManager2) (p : String × Nat),
      p ∈ ((l.foldl assignStep2 st)).slotAssignments →
      p ∈ st.slotAssignments ∨ ∃ x ∈ l, p.1 = x.id := by
  intro l
  induction l with
  | nil => intro st p hp; left; exact hp
  | cons x t ih =>
    intro st p hp
    rw [List.foldl_cons] at hp
    rcases ih (assignStep2 st x) p hp with h | ⟨y, hy, hpy⟩
    · rcases hlook : mapLookup x.id st.slotAssignments with _ | w
      · rcases havl : st.availableSlots with _ | ⟨slot, rest⟩
        · rw [assignStep2_of_none_nil x hlook havl] at h
          exact Or.inl h
        · rw [assignStep2_of_none_cons x hlook havl] at h
          by_cases hlt : slot < st.maxSlots
          · rw [if_pos hlt] at h
            have h2 : p ∈ st.slotAssignments ++ [(x.id, slot)] := h
            rcases List.mem_append.mp h2 with h3 | h3
            · exact Or.inl h3
            · right
              refine ⟨x, List.mem_cons_self x t, ?_⟩
              simp only [List.mem_singleton] at h3
              rw [h3]
          · rw [if_neg hlt] at h
            exact Or.inl h
      · rw [assignStep2_of_some x hlook] at h
        exact Or.inl h
    · exact Or.inr ⟨y, List.mem_cons_of_mem x hy, hpy⟩

theorem foldl_preserve2_assignments :
    ∀ (l : List Photo) (st : SlotManager2),
      ((l.foldl preserveStep2 st)).slotAssignments = st.slotAssignments := by
  intro l
  induction l with
  | nil => intro st; rfl
  | cons x t ih =>
    intro st
    rw [List.foldl_cons, ih, preserveStep2_assignments]

/-- All assignments surviving `assignSlots` (second variant) belong to
live photos. -/
theorem assignSlots2_keys (s : SlotManager2) (photos : List Photo) :
    ∀ p ∈ (assignSlots2 s photos).slotAssignments,
      p.1 ∈ (safeFilter photos).map Photo.id := by
  simp only [assignSlots2]
  intro p hp
  rcases foldl_assign2_mem _ _ p hp with h | ⟨x, hx, hpx⟩
  · rw [foldl_preserve2_assignments] at h
    have h2 : p ∈ s.slotAssignments.filter
        (fun p : String × Nat => decide (p.1 ∈ (safeFilter photos).map Photo.id)) := h
    rw [List.mem_filter] at h2
    simpa using h2.2
  · rw [hpx]
    exact List.mem_map_of_mem Photo.id hx

/-- After `assignSlots` (second variant, from an invariant state) every
live photo is assigned or the available list is exhausted. -/
theorem assignSlots2_post (s : SlotManager2) (photos : List Photo) (h : Inv2 s) :
    (∀ x ∈ safeFilter photos,
      (mapLookup x.id (assignSlots2 s photos).slotAssignments).isSome = true)
    ∨ (assignSlots2 s photos).availableSlots = [] := by
  simp only [assignSlots2]
  have hpre := assignSlots2_pre_inv s photos h
  rw [foldl_id_of_fix preserveStep2_id (safeFilter photos) _ hpre]
  exact foldl_assign2_post (safeFilter photos) _ hpre

/-- Reconcile of the second variant is idempotent on every reachable
state. -/
theorem assignSlots2_idem (s : SlotManager2) (photos : List Photo) (h : Inv2 s) :
    assignSlots2 (assignSlots2 s photos) photos = assignSlots2 s photos := by
  have hInvA := assignSlots2_inv s photos h
  have hkeys := assignSlots2_keys s photos
  have hpost := assignSlots2_post s photos h
  set A := assignSlots2 s photos with hA
  have hrem : A.slotAssignments.filter
      (fun p : String × Nat => decide (p.1 ∉ (safeFilter photos).map Photo.id)) = [] := by
    rw [List.filter_eq_nil_iff]
    intro p hp
    simpa using hkeys p hp
  have hkept : A.slotAssignments.filter
      (fun p : String × Nat => decide (p.1 ∈ (safeFilter photos).map Photo.id))
      = A.slotAssignments :=
    filter_all_of_filter_not_nil
      (fun p : String × Nat => p.1 ∈ (safeFilter photos).map Photo.id) hrem
  show assignSlots2 A photos = A
  simp only [assignSlots2]
  rw [hrem, hkept]
  simp only [List.foldl_nil]
  show (safeFilter photos).foldl assignStep2
      ((safeFilter photos).foldl preserveStep2 A) = A
  rw [foldl_id_of_fix preserveStep2_id (safeFilter photos) _ hInvA]
  apply foldl_assign2_id
  intro x hx
  rcases hpost with hp | hp
  · left
    exact hp x hx
  · right
    exact hp

/-- Reconcile of the first variant is idempotent on every state. -/
theorem assignSlots1_idem (s : SlotManager1) (photos : List Photo) :
    assignSlots1 (assignSlots1 s photos) photos = assignSlots1 s photos := by
  have hkeys := assignSlots1_keys s photos
  have hpost := assignSlots1_post s photos
  set A := assignSlots1 s photos with hA
  have hrem : A.slotAssignments.filter
      (fun p : String × Nat => decide (p.1 ∉ (safeFilter photos).map Photo.id)) = [] := by
    rw [List.filter_eq_nil_iff]
    intro p hp
    simpa using hkeys p hp
  have hkept : A.slotAssignments.filter
      (fun p : String × Nat => decide (p.1 ∈ (safeFilter photos).map Photo.id))
      = A.slotAssignments :=
    filter_all_of_filter_not_nil
      (fun p : String × Nat => p.1 ∈ (safeFilter photos).map Photo.id) hrem
  show assignSlots1 A photos = A
  simp only [assignSlots1]
  rw [if_pos hrem, hrem, hkept]
  simp only [List.map_nil, List.append_nil, List.foldl_nil]
  apply foldl_assign1_id
  intro x hx
  rcases hpost with h | h
  · left
    exact h x ((sortPhotos_perm _).mem_iff.mp hx)
  · right
    exact h

/-! ### Sorting-order lemmas for the first-variant comparator -/

theorem photoLeR_iff_of_some {a b : Photo} (ha : a.created_at.isSome = true)
    (hb : b.created_at.isSome = true) : PhotoLeR a b ↔ tsOf a ≤ tsOf b := by
  obtain ⟨ta, hta⟩ := Option.isSome_iff_exists.mp ha
  obtain ⟨tb, htb⟩ := Option.isSome_iff_exists.mp hb
  unfold PhotoLeR photoCmp tsOf
  rw [hta, htb]
  simp only [Option.getD_some]
  omega

theorem photoLeR_iff_of_none {a b : Photo}
    (h : a.created_at = none ∨ b.created_at = none) :
    (PhotoLeR a b ↔ a.id ≤ b.id) := by
  unfold PhotoLeR photoCmp
  have hmatch : (match a.created_at, b.created_at with
      | some ta, some tb => ((ta : Int) - (tb : Int))
      | _, _ => if a.id < b.id then (-1 : Int) else if b.id < a.id then 1 else 0)
      = if a.id < b.id then (-1 : Int) else if b.id < a.id then 1 else 0 := by
    rcases h with h | h
    · rw [h]
    · rw [h]
      cases a.created_at <;> rfl
  rw [hmatch]
  rcases lt_trichotomy a.id b.id with hlt | heq | hgt
  · rw [if_pos hlt]
    simp [le_of_lt hlt]
  · rw [if_neg (by rw [heq]; exact lt_irrefl _), if_neg (by rw [heq]; exact lt_irrefl _)]
    simp [le_of_eq heq]
  · rw [if_neg (not_lt_of_gt hgt), if_pos hgt]
    constructor
    · intro hcontra
      exact absurd hcontra (by norm_num)
    · intro hcontra
      exact absurd hcontra (not_le_of_lt hgt)

theorem photoLeR_total (a b : Photo) : PhotoLeR a b ∨ PhotoLeR b a := by
  rcases ha : a.created_at with _ | ta <;> rcases hb : b.created_at with _ | tb
  · rcases le_total a.id b.id with h | h
    · exact Or.inl ((photoLeR_iff_of_none (Or.inl ha)).mpr h)
    · exact Or.inr ((photoLeR_iff_of_none (Or.inr ha)).mpr h)
  · rcases le_total a.id b.id with h | h
    · exact Or.inl ((photoLeR_iff_of_none (Or.inl ha)).mpr h)
    · exact Or.inr ((photoLeR_iff_of_none (Or.inr ha)).mpr h)
  · rcases le_total a.id b.id with h | h
    · exact Or.inl ((photoLeR_iff_of_none (Or.inr hb)).mpr h)
    · exact Or.inr ((photoLeR_iff_of_none (Or.inl hb)).mpr h)
  · have ha' : a.created_at.isSome = true := by rw [ha]; rfl
    have hb' : b.created_at.isSome = true := by rw [hb]; rfl
    rcases le_total (tsOf a) (tsOf b) with h | h
    · exact Or.inl ((photoLeR_iff_of_some ha' hb').mpr h)
    · exact Or.inr ((photoLeR_iff_of_some hb' ha').mpr h)

/-- Inserting into a timestamp-sorted list keeps it timestamp-sorted, as
long as every timestamp is present. -/
theorem orderedInsert_chain (x : Photo) :
    ∀ l : List Photo, (∀ p ∈ x :: l, p.created_at.isSome = true) →
      List.Chain' (fun a b => tsOf a ≤ tsOf b) l →
      List.Chain' (fun a b => tsOf a ≤ tsOf b) (List.orderedInsert PhotoLeR x l) := by
  intro l
  induction l with
  | nil => intro _ _; simp
  | cons y ys ih =>
    intro hsome hchain
    have hxs : x.created_at.isSome = true := hsome x (List.mem_cons_self _ _)
    have hys : y.created_at.isSome = true :=
      hsome y (List.mem_cons_of_mem _ (List.mem_cons_self _ _))
    by_cases hxy : PhotoLeR x y
    · rw [List.orderedInsert_of_le PhotoLeR ys hxy]
      exact List.chain'_cons.mpr ⟨(photoLeR_iff_of_some hxs hys).mp hxy, hchain⟩
    · have hyx : tsOf y ≤ tsOf x := by
        rcases photoLeR_total x y with h | h
        · exact absurd h hxy
        · exact (photoLeR_iff_of_some hys hxs).mp h
      have hstep : List.orderedInsert PhotoLeR x (y :: ys)
          = y :: List.orderedInsert PhotoLeR x ys := by
        simp only [List.orderedInsert, if_neg hxy]
      rw [hstep]
      have hsome' : ∀ p ∈ x :: ys, p.created_at.isSome = true := by
        intro p hp
        rcases List.mem_cons.mp hp with hp | hp
        · exact hp ▸ hxs
        · exact hsome p (List.mem_cons_of_mem _ (List.mem_cons_of_mem _ hp))
      have htail := ih hsome' (List.Chain'.tail hchain)
      apply List.chain'_cons'.mpr
      refine ⟨?_, htail⟩
      intro z hz
      cases ys with
      | nil =>
        simp only [List.orderedInsert] at hz
        simp only [List.head?] at hz
        rw [Option.mem_def, Option.some.injEq] at hz
        rw [← hz]
        exact hyx
      | cons w ws =>
        by_cases hxw : PhotoLeR x w
        · rw [List.orderedInsert_of_le PhotoLeR ws hxw] at hz
          simp only [List.head?, Option.mem_def, Option.some.injEq] at hz
          rw [← hz]
          exact hyx
        · have : List.orderedInsert PhotoLeR x (w :: ws)
              = w :: List.orderedInsert PhotoLeR x ws := by
            simp only [List.orderedInsert, if_neg hxw]
          rw [this] at hz
          simp only [List.head?, Option.mem_def, Option.some.injEq] at hz
          rw [← hz]
          exact (List.chain'_cons.mp hchain).1

/-- When every live photo has a timestamp, the sort of the first variant
orders them by ascending timestamp. -/
theorem sortPhotos_chain (l : List Photo)
    (h : ∀ p ∈ l, p.created_at.isSome = true) :
    List.Chain' (fun a b => tsOf a ≤ tsOf b) (sortPhotos l) := by
  induction l with
  | nil => simp [sortPhotos]
  | cons x xs ih =>
    have hstep : sortPhotos (x :: xs)
        = List.orderedInsert PhotoLeR x (sortPhotos xs) := rfl
    rw [hstep]
    apply orderedInsert_chain
    · intro p hp
      rcases List.mem_cons.mp hp with hp | hp
      · exact hp ▸ h x (List.mem_cons_self _ _)
      · exact h p (List.mem_cons_of_mem _ ((sortPhotos_perm xs).mem_iff.mp hp))
    · exact ih (fun p hp => h p (List.mem_cons_of_mem _ hp))

/-! ### Static-position lemmas for the pattern generators -/

theorem floatSpeedFactor_of_disabled {s : Settings} (h : s.animationEnabled = false) :
    floatSpeedFactor s = 0 := by
  unfold floatSpeedFactor
  rw [h]
  rfl

theorem waveSpeedFactor_of_disabled {s : Settings} (h : s.animationEnabled = false) :
    waveSpeedFactor s = 0 := by
  unfold waveSpeedFactor
  rw [h]
  rfl

theorem floatPos_static (T : TrigModel) {s : Settings} (t tp : Rat) (i : Nat)
    (h : s.animationEnabled = false) : floatPos T s t i = floatPos T s tp i := by
  unfold floatPos
  rw [floatSpeedFactor_of_disabled h]
  norm_num

theorem floatRot_static (T : TrigModel) {s : Settings} (t tp : Rat) (i : Nat)
    (h : s.animationEnabled = false) : floatRot T s t i = floatRot T s tp i := by
  unfold floatRot
  rw [floatSpeedFactor_of_disabled h, floatPos_static T t tp i h]
  norm_num

theorem wavePos_static (T : TrigModel) {s : Settings} (t tp : Rat) (i : Nat)
    (h : s.animationEnabled = false) : wavePos T s t i = wavePos T s tp i := by
  unfold wavePos
  rw [h]
  norm_num

theorem waveRot_static (T : TrigModel) {s : Settings} (t tp : Rat) (i : Nat)
    (h : s.animationEnabled = false) : waveRot T s t i = waveRot T s tp i := by
  unfold waveRot
  rw [waveSpeedFactor_of_disabled h]
  norm_num

theorem gridPos_static (T : TrigModel) {s : Settings} (t tp : Rat) (i : Nat)
    (h : s.animationEnabled = false) : gridPos T s t i = gridPos T s tp i := by
  unfold gridPos
  rw [h]
  norm_num

theorem gridRot_static (T : TrigModel) {s : Settings} (t tp : Rat) (i : Nat)
    (h : s.animationEnabled = false) : gridRot T s t i = gridRot T s tp i := by
  unfold gridRot
  rw [h]
  norm_num

theorem floatGeneratePositions_static (T : TrigModel) {s : Settings} (t tp : Rat)
    (h : s.animationEnabled = false) :
    floatGeneratePositions T s t = floatGeneratePositions T s tp := by
  unfold floatGeneratePositions
  have hp : floatPos T s t = floatPos T s tp :=
    funext fun i => floatPos_static T t tp i h
  have hr : floatRot T s t = floatRot T s tp :=
    funext fun i => floatRot_static T t tp i h
  rw [hp, hr]

theorem waveGeneratePositions_static (T : TrigModel) {s : Settings} (t tp : Rat)
    (h : s.animationEnabled = false) :
    waveGeneratePositions T s t = waveGeneratePositions T s tp := by
  unfold waveGeneratePositions
  have hp : wavePos T s t = wavePos T s tp :=
    funext fun i => wavePos_static T t tp i h
  have hr : waveRot T s t = waveRot T s tp :=
    funext fun i => waveRot_static T t tp i h
  rw [hp, hr]

theorem gridGeneratePositions_static (T : TrigModel) {s : Settings} (t tp : Rat)
    (h : s.animationEnabled = false) :
    gridGeneratePositions T s t = gridGeneratePositions T s tp := by
  unfold gridGeneratePositions
  have hp : gridPos T s t = gridPos T s tp :=
    funext fun i => gridPos_static T t tp i h
  have hr : gridRot T s t = gridRot T s tp :=
    funext fun i => gridRot_static T t tp i h
  rw [hp, hr]

theorem mem_safeFilter_ids {P : Photo} {L : List Photo} (hid : P.id ≠ "")
    (hP : P ∈ L) : P.id ∈ (safeFilter L).map Photo.id :=
  List.mem_map_of_mem Photo.id
    (List.mem_filter.mpr ⟨hP, by simpa using hid⟩)

/-! ### The claims -/

/-- Claim C1 (slot stability): over any sequence of consecutive reconcile
calls with no intervening capacity change — in either SlotManager variant
— a photo contained in the live list of every call keeps its slot: if the
assignment map sends its id to slot `k` before the sequence, it still
sends it to `k` after every call of the sequence. -/
theorem C1_slot_stability :
    (∀ (s : SlotManager1) (Ls : List (List Photo)) (P : Photo) (k : Nat),
      P.id ≠ "" → (∀ L ∈ Ls, P ∈ L) →
      mapLookup P.id s.slotAssignments = some k →
      mapLookup P.id (Ls.foldl assignSlots1 s).slotAssignments = some k) ∧
    (∀ (s : SlotManager2) (Ls : List (List Photo)) (P : Photo) (k : Nat),
      P.id ≠ "" → (∀ L ∈ Ls, P ∈ L) →
      mapLookup P.id s.slotAssignments = some k →
      mapLookup P.id (Ls.foldl assignSlots2 s).slotAssignments = some k) := by
  constructor
  · intro s Ls
    induction Ls generalizing s with
    | nil => intro P k _ _ h; exact h
    | cons L rest ih =>
      intro P k hid hLs h
      rw [List.foldl_cons]
      apply ih _ P k hid (fun Lp hLp => hLs Lp (List.mem_cons_of_mem _ hLp))
      exact assignSlots1_stable s L
        (mem_safeFilter_ids hid (hLs L (List.mem_cons_self _ _))) h
  · intro s Ls
    induction Ls generalizing s with
    | nil => intro P k _ _ h; exact h
    | cons L rest ih =>
      intro P k hid hLs h
      rw [List.foldl_cons]
      apply ih _ P k hid (fun Lp hLp => hLs Lp (List.mem_cons_of_mem _ hLp))
      exact assignSlots2_stable s L
        (mem_safeFilter_ids hid (hLs L (List.mem_cons_self _ _))) h

theorem C1_slot_stability_witness :
    mapLookup "A" ([[photoA], [photoA, photoB]].foldl assignSlots1
      (assignSlots1 (SlotManager1.new 2) [photoA])).slotAssignments = some 0 ∧
    mapLookup "A" ([[photoA], [photoA, photoB]].foldl assignSlots2
      (assignSlots2 (SlotManager2.new 2) [photoA])).slotAssignments = some 0 :=
  ⟨C1_slot_stability.1 (assignSlots1 (SlotManager1.new 2) [photoA])
      [[photoA], [photoA, photoB]] photoA 0 (by decide) (by decide) (by decide),
   C1_slot_stability.2 (assignSlots2 (SlotManager2.new 2) [photoA])
      [[photoA], [photoA, photoB]] photoA 0 (by decide) (by decide) (by decide)⟩

/-- Claim C2 (slot non-collision and range): after any interleaving of
reconcile and capacity-change operations on a freshly constructed manager
(either variant), the id-to-slot map is injective — equal slots force
equal entries, hence equal ids — and every assigned slot index is below
the current capacity. -/
theorem C2_slot_noncollision (n : Nat) (ops : List SMOp) :
    (∀ p ∈ (run1 (SlotManager1.new n) ops).slotAssignments,
      ∀ q ∈ (run1 (SlotManager1.new n) ops).slotAssignments, p.2 = q.2 → p = q) ∧
    (∀ p ∈ (run1 (SlotManager1.new n) ops).slotAssignments,
      p.2 < (run1 (SlotManager1.new n) ops).totalSlots) ∧
    (∀ p ∈ (run2 (SlotManager2.new n) ops).slotAssignments,
      ∀ q ∈ (run2 (SlotManager2.new n) ops).slotAssignments, p.2 = q.2 → p = q) ∧
    (∀ p ∈ (run2 (SlotManager2.new n) ops).slotAssignments,
      p.2 < (run2 (SlotManager2.new n) ops).maxSlots) := by
  have h1 := run1_inv (SlotManager1.new n) ops (inv1_new n)
  have h2 := run2_inv (SlotManager2.new n) ops (inv2_new n)
  exact ⟨nodup_vals_inj h1.2.1, h1.2.2.1, nodup_vals_inj h2.2.1, h2.2.2.1⟩

theorem C2_slot_noncollision_witness :
    (0 : Nat) < (run1 (SlotManager1.new 1) [SMOp.reconcile [photoA]]).totalSlots ∧
    (0 : Nat) < (run2 (SlotManager2.new 1) [SMOp.reconcile [photoA]]).maxSlots :=
  ⟨(C2_slot_noncollision 1 [SMOp.reconcile [photoA]]).2.1 ("A", 0) (by decide),
   (C2_slot_noncollision 1 [SMOp.reconcile [photoA]]).2.2.2 ("A", 0) (by decide)⟩

/-- Claim C3 (reconcile idempotence): calling `assignSlots` twice in a row
with the same live list leaves the state of the second call exactly equal
to the state after the first call — for the first variant on every state,
for the second variant on every state satisfying its reachable-state
invariant `Inv2` (which a fresh manager satisfies and every operation
preserves). -/
theorem C3_reconcile_idempotent :
    (∀ (s : SlotManager1) (L : List Photo),
      assignSlots1 (assignSlots1 s L) L = assignSlots1 s L) ∧
    (∀ (s : SlotManager2) (L : List Photo), Inv2 s →
      assignSlots2 (assignSlots2 s L) L = assignSlots2 s L) :=
  ⟨assignSlots1_idem, assignSlots2_idem⟩

theorem C3_reconcile_idempotent_witness :
    assignSlots1 (assignSlots1 (SlotManager1.new 2) [photoA, photoB]) [photoA, photoB]
      = assignSlots1 (SlotManager1.new 2) [photoA, photoB] ∧
    assignSlots2 (assignSlots2 (SlotManager2.new 2) [photoA, photoB]) [photoA, photoB]
      = assignSlots2 (SlotManager2.new 2) [photoA, photoB] :=
  ⟨C3_reconcile_idempotent.1 (SlotManager1.new 2) [photoA, photoB],
   C3_reconcile_idempotent.2 (SlotManager2.new 2) [photoA, photoB] (by decide)⟩

/-- Claim C4 counterexample: two live photos with equal present
timestamps, ids "a" and "b".  The claim says assignment order falls back
to identifier order when timestamps are equal — which would give photo
"a" slot 0 regardless of input order.  In the code the comparator returns
0 for equal timestamps, the stable sort keeps input order, and presenting
the photos as [b, a] assigns slot 0 to "b" and slot 1 to "a": the result
depends on the order in which the input list presents the photos. -/
theorem C4_deterministic_order_cx :
    photoEq1.id = "a" ∧ photoEq2.id = "b" ∧
    photoEq1.created_at = photoEq2.created_at ∧
    mapLookup "a" (assignSlots1 (SlotManager1.new 2)
      [photoEq1, photoEq2]).slotAssignments = some 0 ∧
    mapLookup "a" (assignSlots1 (SlotManager1.new 2)
      [photoEq2, photoEq1]).slotAssignments = some 1 := by
  refine ⟨rfl, rfl, rfl, by decide, by decide⟩

/-- Claim C4 amended: in the first variant, unassigned live photos are
assigned in the order of a stable sort of the live list: a permutation of
the input that ascends by creation timestamp whenever all timestamps are
present, with the identifier fallback applying only when a timestamp is
absent; photos with equal present timestamps keep their input order, so
the assignment may depend on input order.  The second variant does not
sort at all: it assigns in input-list order (photo B, presented first,
takes slot 0 even though photo A has the earlier timestamp). -/
theorem C4_deterministic_order_amended :
    (∀ l : List Photo, List.Perm (sortPhotos l) l) ∧
    (∀ l : List Photo, (∀ p ∈ l, p.created_at.isSome = true) →
      List.Chain' (fun a b => tsOf a ≤ tsOf b) (sortPhotos l)) ∧
    (∀ a b : Photo, a.created_at = none ∨ b.created_at = none →
      (PhotoLeR a b ↔ a.id ≤ b.id)) ∧
    sortPhotos [photoEq2, photoEq1] = [photoEq2, photoEq1] ∧
    mapLookup "B" (assignSlots2 (SlotManager2.new 2)
      [photoB, photoA]).slotAssignments = some 0 ∧
    mapLookup "A" (assignSlots2 (SlotManager2.new 2)
      [photoB, photoA]).slotAssignments = some 1 :=
  ⟨sortPhotos_perm, sortPhotos_chain, fun _ _ h => photoLeR_iff_of_none h,
   by decide, by decide, by decide⟩

theorem C4_deterministic_order_amended_witness :
    List.Perm (sortPhotos [photoB, photoA]) [photoB, photoA] ∧
    List.Chain' (fun a b => tsOf a ≤ tsOf b) (sortPhotos [photoB, photoA]) ∧
    (PhotoLeR photoNoTs photoA ↔ photoNoTs.id ≤ photoA.id) :=
  ⟨C4_deterministic_order_amended.1 [photoB, photoA],
   C4_deterministic_order_amended.2.1 [photoB, photoA] (by decide),
   C4_deterministic_order_amended.2.2.1 photoNoTs photoA (Or.inl rfl)⟩

/-- Claim C5 (recycling preference): capacity 3, photos A, B, C uploaded
in timestamp order take slots 0, 1, 2; after B is removed, reconciling
with live list A, C, D gives D the recycled slot 1 while A keeps 0 and C
keeps 2 — in both SlotManager variants. -/
theorem C5_recycling_preference :
    (mapLookup "A" (assignSlots1 (SlotManager1.new 3)
        [photoA, photoB, photoC]).slotAssignments = some 0 ∧
      mapLookup "B" (assignSlots1 (SlotManager1.new 3)
        [photoA, photoB, photoC]).slotAssignments = some 1 ∧
      mapLookup "C" (assignSlots1 (SlotManager1.new 3)
        [photoA, photoB, photoC]).slotAssignments = some 2 ∧
      mapLookup "A" (assignSlots1 (assignSlots1 (SlotManager1.new 3)
        [photoA, photoB, photoC]) [photoA, photoC, photoD]).slotAssignments = some 0 ∧
      mapLookup "C" (assignSlots1 (assignSlots1 (SlotManager1.new 3)
        [photoA, photoB, photoC]) [photoA, photoC, photoD]).slotAssignments = some 2 ∧
      mapLookup "D" (assignSlots1 (assignSlots1 (SlotManager1.new 3)
        [photoA, photoB, photoC]) [photoA, photoC, photoD]).slotAssignments = some 1) ∧
    (mapLookup "A" (assignSlots2 (SlotManager2.new 3)
        [photoA, photoB, photoC]).slotAssignments = some 0 ∧
      mapLookup "B" (assignSlots2 (SlotManager2.new 3)
        [photoA, photoB, photoC]).slotAssignments = some 1 ∧
      mapLookup "C" (assignSlots2 (SlotManager2.new 3)
        [photoA, photoB, photoC]).slotAssignments = some 2 ∧
      mapLookup "A" (assignSlots2 (assignSlots2 (SlotManager2.new 3)
        [photoA, photoB, photoC]) [photoA, photoC, photoD]).slotAssignments = some 0 ∧
      mapLookup "C" (assignSlots2 (assignSlots2 (SlotManager2.new 3)
        [photoA, photoB, photoC]) [photoA, photoC, photoD]).slotAssignments = some 2 ∧
      mapLookup "D" (assignSlots2 (assignSlots2 (SlotManager2.new 3)
        [photoA, photoB, photoC]) [photoA, photoC, photoD]).slotAssignments = some 1) := by
  exact ⟨⟨by decide, by decide, by decide, by decide, by decide, by decide⟩,
    ⟨by decide, by decide, by decide, by decide, by decide, by decide⟩⟩

theorem map_eq_self_of {α : Type} (f : α → α) :
    ∀ l : List α, (∀ a ∈ l, f a = a) → l.map f = l := by
  intro l
  induction l with
  | nil => intro _; rfl
  | cons a t ih =>
    intro h
    rw [List.map_cons, h a (List.mem_cons_self a t), ih (fun b hb => h b (List.mem_cons_of_mem a hb))]

/-- Claim C6 counterexample: an UPDATE event for an id absent from the
store leaves the photo list unchanged (the photo is not added), and an
INSERT event for an id already present keeps the old entry (it is not
replaced) — neither handler is an upsert in the claimed sense. -/
theorem C6_upsert_cx :
    (handleUpdateEvent photoV1 5 (collageStateWith [])).photos = [] ∧
    (handleInsertEvent photoV2 5 (collageStateWith [photoV1])).photos = [photoV1] ∧
    photoV1 ≠ photoV2 ∧ photoV1.id = photoV2.id := by
  refine ⟨by decide, by decide, by decide, rfl⟩

/-- Claim C6 amended: the INSERT handler adds the photo only when its id
is absent (when present the whole state, old entry included, is
unchanged); the UPDATE handler replaces the entry in place when the id is
present (same length, the new photo in the list) and leaves the photo
list untouched when the id is absent. -/
theorem C6_upsert_amended :
    (∀ (s : CollageState) (p : Photo) (now : Nat),
      (∀ q ∈ s.photos, q.id ≠ p.id) →
      (handleInsertEvent p now s).photos = p :: s.photos) ∧
    (∀ (s : CollageState) (p : Photo) (now : Nat) (q : Photo),
      q ∈ s.photos → q.id = p.id → handleInsertEvent p now s = s) ∧
    (∀ (s : CollageState) (p : Photo) (now : Nat),
      (∀ q ∈ s.photos, q.id ≠ p.id) →
      (handleUpdateEvent p now s).photos = s.photos) ∧
    (∀ (s : CollageState) (p : Photo) (now : Nat) (q : Photo),
      q ∈ s.photos → q.id = p.id →
        p ∈ (handleUpdateEvent p now s).photos ∧
        (handleUpdateEvent p now s).photos.length = s.photos.length) := by
  refine ⟨?_, ?_, ?_, ?_⟩
  · intro s p now h
    have hany : s.photos.any (fun q => decide (q.id = p.id)) = false := by
      rw [List.any_eq_false]
      intro q hq
      simpa using h q hq
    simp [handleInsertEvent, addPhotoToState, hany]
  · intro s p now q hq hid
    have hany : s.photos.any (fun r => decide (r.id = p.id)) = true :=
      List.any_eq_true.mpr ⟨q, hq, by simpa using hid⟩
    simp [handleInsertEvent, addPhotoToState, hany]
  · intro s p now h
    show s.photos.map (fun q => if q.id = p.id then p else q) = s.photos
    apply map_eq_self_of
    intro a ha
    rw [if_neg (h a ha)]
  · intro s p now q hq hid
    constructor
    · show p ∈ s.photos.map (fun r => if r.id = p.id then p else r)
      exact List.mem_map.mpr ⟨q, hq, by rw [if_pos hid]⟩
    · show (s.photos.map (fun r => if r.id = p.id then p else r)).length = s.photos.length
      exact List.length_map s.photos _

theorem C6_upsert_amended_witness :
    (handleInsertEvent photoV1 5 (collageStateWith [])).photos = [photoV1] ∧
    handleInsertEvent photoV2 7 (collageStateWith [photoV1]) = collageStateWith [photoV1] ∧
    (handleUpdateEvent photoV1 5 (collageStateWith [])).photos = [] ∧
    photoV2 ∈ (handleUpdateEvent photoV2 5 (collageStateWith [photoV1])).photos :=
  ⟨C6_upsert_amended.1 (collageStateWith []) photoV1 5 (by decide),
   C6_upsert_amended.2.1 (collageStateWith [photoV1]) photoV2 7 photoV1 (by decide) (by decide),
   C6_upsert_amended.2.2.1 (collageStateWith []) photoV1 5 (by decide),
   (C6_upsert_amended.2.2.2 (collageStateWith [photoV1]) photoV2 5 photoV1
      (by decide) (by decide)).1⟩

/-- Claim C7 counterexample: removing an id that is not in the store is
not a no-op on the store state: the photo list is untouched, but the code
deliberately returns a fresh state with an updated last-refresh timestamp
(to force a re-render), so the state changes. -/
theorem C7_store_idem_cx :
    removePhotoFromState "x" 5 (collageStateWith []) ≠ collageStateWith [] ∧
    (removePhotoFromState "x" 5 (collageStateWith [])).photos
      = (collageStateWith []).photos ∧
    (removePhotoFromState "x" 5 (collageStateWith [])).lastRefreshTime = 5 ∧
    (collageStateWith []).lastRefreshTime = 0 := by
  refine ⟨by decide, by decide, by decide, rfl⟩

/-- Claim C7 amended: `remove(X)` on a store whose photo list holds no
photo with id X leaves every field except the last-refresh timestamp
unchanged (it only stamps the clock); `upsert(P)` applied twice leaves
exactly one entry with the id of P, provided the store held at most one
such entry beforehand (as every reachable store does). -/
theorem C7_store_idem_amended :
    (∀ (s : CollageState) (x : String) (now : Nat),
      (∀ p ∈ s.photos, p.id ≠ x) →
      removePhotoFromState x now s = { s with lastRefreshTime := now }) ∧
    (∀ (s : CollageState) (p : Photo) (n1 n2 : Nat),
      s.photos.countP (fun q => decide (q.id = p.id)) ≤ 1 →
      (addPhotoToState p n2 (addPhotoToState p n1 s)).photos.countP
        (fun q => decide (q.id = p.id)) = 1) := by
  constructor
  · intro s x now h
    have hfilter : s.photos.filter (fun p => decide (p.id ≠ x)) = s.photos :=
      filter_eq_self_of _ _ (fun a ha => by simpa using h a ha)
    simp only [removePhotoFromState, hfilter]
    simp
  · intro s p n1 n2 hcount
    by_cases hany : s.photos.any (fun q => decide (q.id = p.id)) = true
    · have h1 : addPhotoToState p n1 s = s := by
        simp [addPhotoToState, hany]
      rw [h1]
      have h2 : addPhotoToState p n2 s = s := by
        simp [addPhotoToState, hany]
      rw [h2]
      obtain ⟨q, hq, hqid⟩ := List.any_eq_true.mp hany
      have hpos : 0 < s.photos.countP (fun q => decide (q.id = p.id)) :=
        List.countP_pos_iff.mpr ⟨q, hq, hqid⟩
      omega
    · have h1 : addPhotoToState p n1 s
          = { s with photos := p :: s.photos, lastRefreshTime := n1 } := by
        simp only [addPhotoToState]
        rw [if_neg (by simpa using hany)]
      rw [h1]
      have hany2 : (p :: s.photos).any (fun q => decide (q.id = p.id)) = true :=
        List.any_eq_true.mpr ⟨p, List.mem_cons_self p s.photos, by simp⟩
      have h2 : addPhotoToState p n2
          { s with photos := p :: s.photos, lastRefreshTime := n1 }
          = { s with photos := p :: s.photos, lastRefreshTime := n1 } := by
        simp only [addPhotoToState]
        rw [if_pos (of_decide_eq_true (by simp))]
      rw [h2]
      have hzero : s.photos.countP (fun q => decide (q.id = p.id)) = 0 := by
        rw [List.countP_eq_zero]
        intro q hq
        intro hcontra
        exact hany (List.any_eq_true.mpr ⟨q, hq, hcontra⟩)
      show (p :: s.photos).countP (fun q => decide (q.id = p.id)) = 1
      rw [List.countP_cons_of_pos _ _ (by simp), hzero]

theorem C7_store_idem_amended_witness :
    removePhotoFromState "x" 9 (collageStateWith [photoA])
      = { collageStateWith [photoA] with lastRefreshTime := 9 } ∧
    (addPhotoToState photoA 2 (addPhotoToState photoA 1
      (collageStateWith []))).photos.countP
      (fun q => decide (q.id = photoA.id)) = 1 :=
  ⟨C7_store_idem_amended.1 (collageStateWith [photoA]) "x" 9 (by decide),
   C7_store_idem_amended.2 (collageStateWith []) photoA 1 2 (by decide)⟩

theorem handleStatus_not_subscribed (s : RealtimeState) (status : String)
    (h : status ≠ "SUBSCRIBED") :
    (handleStatus s status).pollingInterval = some 3000 := by
  have hb : (status == "SUBSCRIBED") = false := beq_eq_false_iff_ne.mpr h
  simp [handleStatus, startPolling, stopPolling, hb, POLL_MS]

theorem handleStatus_subscribed (s : RealtimeState) :
    pollingActive (handleStatus s "SUBSCRIBED") = false := by
  simp [handleStatus, stopPolling, pollingActive]

/-- Claim C9 (polling tracks subscription): a status callback with any
value other than SUBSCRIBED schedules the fixed 3000 ms polling interval;
the SUBSCRIBED callback clears it.  For the reconnection scenario — the
Connecting phase is the initial state before the feed has delivered any
status callback, then the callbacks SUBSCRIBED, CLOSED (the drop) and
SUBSCRIBED (recovery) arrive — polling is inactive, inactive, active only
during the drop, and inactive after recovery; and after any callback
sequence whose last status is SUBSCRIBED, polling is inactive. -/
theorem C9_polling_tracks_subscription :
    (∀ (s : RealtimeState) (status : String), status ≠ "SUBSCRIBED" →
      (handleStatus s status).pollingInterval = some 3000 ∧
      pollingActive (handleStatus s status) = true) ∧
    (∀ s : RealtimeState, pollingActive (handleStatus s "SUBSCRIBED") = false) ∧
    pollingActive initialRealtime = false ∧
    pollingActive (runStatuses initialRealtime ["SUBSCRIBED"]) = false ∧
    pollingActive (runStatuses initialRealtime ["SUBSCRIBED", "CLOSED"]) = true ∧
    pollingActive (runStatuses initialRealtime
      ["SUBSCRIBED", "CLOSED", "SUBSCRIBED"]) = false ∧
    (∀ (s : RealtimeState) (pre : List String),
      pollingActive (runStatuses s (pre ++ ["SUBSCRIBED"])) = false) := by
  refine ⟨?_, handleStatus_subscribed, by decide, by decide, by decide, by decide, ?_⟩
  · intro s status h
    refine ⟨handleStatus_not_subscribed s status h, ?_⟩
    unfold pollingActive
    rw [handleStatus_not_subscribed s status h]
    rfl
  · intro s pre
    unfold runStatuses
    rw [List.foldl_append, List.foldl_cons, List.foldl_nil]
    exact handleStatus_subscribed _

theorem C9_polling_tracks_subscription_witness :
    (handleStatus initialRealtime "CLOSED").pollingInterval = some 3000 ∧
    pollingActive (runStatuses initialRealtime
      (["SUBSCRIBED", "CLOSED"] ++ ["SUBSCRIBED"])) = false :=
  ⟨(C9_polling_tracks_subscription.1 initialRealtime "CLOSED" (by decide)).1,
   C9_polling_tracks_subscription.2.2.2.2.2.2 initialRealtime ["SUBSCRIBED", "CLOSED"]⟩

/-- Claim C10 (newest-first prepend): when the photo id is not yet in the
store, `addPhotoToState` prepends the photo at the head of the unchanged
previous list and stamps the refresh time, touching no other field of the
store state; when the id is already present, the whole state — the photo
list in particular — is returned unchanged. -/
theorem C10_prepend_frame :
    (∀ (s : CollageState) (p : Photo) (now : Nat),
      (∀ q ∈ s.photos, q.id ≠ p.id) →
        (addPhotoToState p now s).photos = p :: s.photos ∧
        (addPhotoToState p now s).lastRefreshTime = now ∧
        (addPhotoToState p now s).loading = s.loading ∧
        (addPhotoToState p now s).error = s.error ∧
        (addPhotoToState p now s).isRealtimeConnected = s.isRealtimeConnected ∧
        (addPhotoToState p now s).pollingInterval = s.pollingInterval) ∧
    (∀ (s : CollageState) (p : Photo) (now : Nat) (q : Photo),
      q ∈ s.photos → q.id = p.id → addPhotoToState p now s = s) := by
  constructor
  · intro s p now h
    have hany : s.photos.any (fun q => decide (q.id = p.id)) = false := by
      rw [List.any_eq_false]
      intro q hq
      simpa using h q hq
    have hstep : addPhotoToState p now s
        = { s with photos := p :: s.photos, lastRefreshTime := now } := by
      simp only [addPhotoToState]
      rw [if_neg (by simp [hany])]
    rw [hstep]
    exact ⟨rfl, rfl, rfl, rfl, rfl, rfl⟩
  · intro s p now q hq hid
    have hany : s.photos.any (fun r => decide (r.id = p.id)) = true :=
      List.any_eq_true.mpr ⟨q, hq, by simpa using hid⟩
    simp [addPhotoToState, hany]

theorem C10_prepend_frame_witness :
    (addPhotoToState photoB 5 (collageStateWith [photoA])).photos = [photoB, photoA] ∧
    (addPhotoToState photoB 5 (collageStateWith [photoA])).pollingInterval
      = (collageStateWith [photoA]).pollingInterval ∧
    addPhotoToState photoA 5 (collageStateWith [photoA]) = collageStateWith [photoA] :=
  ⟨(C10_prepend_frame.1 (collageStateWith [photoA]) photoB 5 (by decide)).1,
   (C10_prepend_frame.1 (collageStateWith [photoA]) photoB 5 (by decide)).2.2.2.2.2,
   C10_prepend_frame.2 (collageStateWith [photoA]) photoA 5 photoA (by decide) (by decide)⟩

/-- Claim C8 counterexample: with animation enabled and the speed setting
at 0 — a value inside [0, 100] — the float generator normalizes speed to
`max(0.1, 0/50) = 0.1`, not to `0/50 = 0`: the float multiplier is not
`s/50` exactly. -/
theorem C8_speed_normalization_cx :
    settingsSpeed0.animationEnabled = true ∧
    settingsSpeed0.animationSpeed = 0 ∧
    floatSpeedFactor settingsSpeed0 = 1/10 ∧
    settingsSpeed0.animationSpeed / 50 = 0 ∧
    ((1 : Rat)/10) ≠ 0 := by
  refine ⟨rfl, rfl, ?_, by norm_num [settingsSpeed0], by norm_num⟩
  norm_num [floatSpeedFactor, settingsSpeed0]

/-- Claim C8 amended: Grid and Wave normalize the animation-speed setting
to exactly `s/50`; Float clamps the multiplier to `max(0.1, s/50)` when
animation is enabled, which equals `s/50` only for `s ≥ 5`.  When the
animation-enabled flag is false, all three generators return positions and
rotations independent of the time argument (for every slot and every trig
implementation). -/
theorem C8_speed_normalization_amended :
    (∀ s : Settings, s.animationEnabled = true →
      floatSpeedFactor s = max (1/10) (s.animationSpeed / 50)) ∧
    (∀ s : Settings, s.animationEnabled = true → 5 ≤ s.animationSpeed →
      floatSpeedFactor s = s.animationSpeed / 50) ∧
    (∀ s : Settings, gridSpeedFactor s = s.animationSpeed / 50) ∧
    (∀ s : Settings, s.animationEnabled = true →
      waveSpeedFactor s = s.animationSpeed / 50) ∧
    (∀ (T : TrigModel) (s : Settings) (t tp : Rat), s.animationEnabled = false →
      gridGeneratePositions T s t = gridGeneratePositions T s tp ∧
      waveGeneratePositions T s t = waveGeneratePositions T s tp ∧
      floatGeneratePositions T s t = floatGeneratePositions T s tp) := by
  refine ⟨?_, ?_, fun s => rfl, ?_, ?_⟩
  · intro s h
    unfold floatSpeedFactor
    rw [h]
    rfl
  · intro s h h5
    unfold floatSpeedFactor
    rw [h]
    show max (1/10) (s.animationSpeed / 50) = s.animationSpeed / 50
    rw [max_eq_right]
    rw [div_le_div_iff₀ (by norm_num) (by norm_num)]
    linarith
  · intro s h
    unfold waveSpeedFactor
    rw [h]
    rfl
  · intro T s t tp h
    exact ⟨gridGeneratePositions_static T t tp h,
      waveGeneratePositions_static T t tp h,
      floatGeneratePositions_static T t tp h⟩

theorem C8_speed_normalization_amended_witness :
    floatSpeedFactor settingsSpeed0 = max (1/10) (settingsSpeed0.animationSpeed / 50) ∧
    floatSpeedFactor settingsSpeed50 = settingsSpeed50.animationSpeed / 50 ∧
    waveSpeedFactor settingsSpeed50 = settingsSpeed50.animationSpeed / 50 ∧
    gridGeneratePositions zeroTrig settingsDisabled 0
      = gridGeneratePositions zeroTrig settingsDisabled 7 ∧
    waveGeneratePositions zeroTrig settingsDisabled 0
      = waveGeneratePositions zeroTrig settingsDisabled 7 ∧
    floatGeneratePositions zeroTrig settingsDisabled 0
      = floatGeneratePositions zeroTrig settingsDisabled 7 :=
  ⟨C8_speed_normalization_amended.1 settingsSpeed0 rfl,
   C8_speed_normalization_amended.2.1 settingsSpeed50 rfl (by norm_num [settingsSpeed50]),
   C8_speed_normalization_amended.2.2.2.1 settingsSpeed50 rfl,
   (C8_speed_normalization_amended.2.2.2.2 zeroTrig settingsDisabled 0 7 rfl).1,
   (C8_speed_normalization_amended.2.2.2.2 zeroTrig settingsDisabled 0 7 rfl).2.1,
   (C8_speed_normalization_amended.2.2.2.2 zeroTrig settingsDisabled 0 7 rfl).2.2⟩

end Photosphere

